import Mathlib

/-!
Verification development for the workerd snapshot.

Part 1 models the durable actor-state coordinator (`ActorSqlite`).  The
implementation file `actor-sqlite.c++` is not part of the snapshot; only its
test suite `src/workerd/io/actor-sqlite-test.c++` is.  The coordinator is
therefore modelled from the specification (sections 3-4.4 of the spec) and the
model is validated by replaying the concrete call sequences that the test
suite pins down.

Part 2 embeds the streaming trace implementation from
`src/workerd/io/trace-streaming.c++`, which is present in the snapshot.
-/

namespace Workerd

/-- Time in milliseconds since the Unix epoch, matching the `oneMs` .. `fiveMs`
constants used throughout `actor-sqlite-test.c++`. -/
abbrev Time := Nat

namespace ActorSqlite

/-- Modelled from the spec: the two external capabilities the coordinator
talks to, exactly as logged by the test harness: `scheduleRun(t?)` calls on
the scheduler hook and `commit` calls on the durability callback. -/
inductive ExtCall where
  | scheduleRun (t : Option Time)
  | commitCallback
  deriving DecidableEq, Repr

/-- Modelled from the spec (section 4.3): direction of an alarm change.
`isEarlier tNew tOld` holds when the new alarm time is strictly earlier than
the previously scheduled time, including the case where nothing was scheduled
(`tOld = none`) and the new time is an instant.  A new time of `none` is never
"earlier". -/
def isEarlier (tNew tOld : Option Time) : Bool :=
  match tNew, tOld with
  | none, _ => false
  | some _, none => true
  | some n, some o => decide (n < o)

/-- Phase of the single pre-commit alarm coupling task: either armed (waiting
for the event loop to run the commit code) or waiting on a pre-commit
`scheduleRun` issued inside the still-open transaction. -/
inductive PrePhase where
  | armed
  | waitSched (cid : Nat) (v : Option Time)
  deriving DecidableEq, Repr

/-- Phase of a post-commit task: waiting on the durability callback (with an
optional post-commit `scheduleRun` still to issue, recorded together with the
previously scheduled value), or waiting on that post-commit `scheduleRun`. -/
inductive PostPhase where
  | waitCommit (cid : Nat) (viaPipeline : Bool) (post : Option (Option Time × Option Time))
  | waitPostSched (cid : Nat) (v : Option Time)
  deriving DecidableEq, Repr

/-- A commit task that has already performed its synchronous sqlite commit. -/
structure Task where
  tid : Nat
  phase : PostPhase
  deriving DecidableEq, Repr

/-- An output-gate waiter: blocked until every task it observed at
registration time has completed. -/
structure Waiter where
  wid : Nat
  waitingOn : List Nat
  deriving DecidableEq, Repr

/-- Modelled from the spec (section 4.4): state of an armed alarm handler
token (`handler_state = Armed{fire_time, deferred_delete, dirty}`). -/
structure ArmedH where
  fireTime : Time
  deferredDelete : Bool
  dirty : Bool
  deriving DecidableEq, Repr

/-- Observable events of a coordinator run, used to state the temporal
ordering claims.  `schedStart tid cid v prev pre ro` records that task `tid`
issued `scheduleRun(v)` as call `cid` while the scheduler previously knew
`prev`; `pre` marks a pre-commit (earlier-direction) call and `ro` records
whether the root savepoint was open at issuance.  `dbCommit tid a vp lc` is
the synchronous sqlite commit making alarm value `a` locally durable
(`vp` = the alarm change was fully scheduled beforehand; `lc` = a commit-first
alarm change `(new, previouslyScheduled)`). -/
inductive Ev where
  | schedStart (tid cid : Nat) (v prev : Option Time) (pre : Bool) (ro : Bool)
  | schedDone (tid cid : Nat) (v : Option Time)
  | dbCommit (tid : Nat) (a : Option Time) (vp : Bool) (lc : Option (Option Time × Option Time))
  | commitCallStart (tid cid : Nat)
  | commitCallDone (tid cid : Nat)
  | releasedWaiters (ws : List Nat)
  | brokenSet (e : String)
  deriving DecidableEq, Repr

/-- Modelled from the spec (section 3, "Coordinator state"): the full
process-local coordinator state, together with the mock call log and event
trace used to observe runs the way the test harness does. -/
structure St where
  committedAlarm : Option Time := none
  pendingAlarm : Option (Option Time) := none
  pendingWrite : Bool := false
  scheduledAlarm : Option Time := none
  handler : Option ArmedH := none
  broken : Option String := none
  failureQueue : List String := []
  rootOpen : Bool := false
  txnDepth : Nat := 0
  preTask : Option (Nat × PrePhase) := none
  tasks : List Task := []
  waiters : List Waiter := []
  calls : List (Nat × ExtCall) := []
  callLog : List ExtCall := []
  nextCid : Nat := 1
  nextTid : Nat := 1
  nextWid : Nat := 1
  events : List Ev := []
  deriving DecidableEq, Repr

/-- The alarm value the staged transaction would commit:
`pending_alarm.unwrap_or(committed_alarm)` (spec invariant 4). -/
def effectiveAlarm (s : St) : Option Time :=
  s.pendingAlarm.getD s.committedAlarm

/-- Issue an external call: returns the fresh call id and records the call as
outstanding and in the historic call log. -/
def issueCall (c : ExtCall) (s : St) : Nat × St :=
  (s.nextCid,
    { s with
      calls := s.calls ++ [(s.nextCid, c)]
      callLog := s.callLog ++ [c]
      nextCid := s.nextCid + 1 })

/-- Stage an alarm mutation: record the pending change and make sure the root
savepoint `_cf_savepoint_0` is open. -/
def stageAlarm (t : Option Time) (s : St) : St :=
  { s with pendingAlarm := some t, rootOpen := true }

/-- Arm the commit machinery: if no pre-commit task exists, create one in the
armed phase, to be started at the next event-loop poll. -/
def ensureTask (s : St) : St :=
  match s.preTask with
  | some _ => s
  | none => { s with preTask := some (s.nextTid, PrePhase.armed), nextTid := s.nextTid + 1 }

/-- Modelled from the spec (section 4.2, `set_alarm`): compare against the
effective value; on a change, mark an armed handler dirty (cancelling the
deferred deletion), stage the change and arm a commit. -/
def setAlarmCore (t : Option Time) (s : St) : St :=
  if t = effectiveAlarm s then s
  else
    let s1 :=
      match s.handler with
      | some h => { s with handler := some { h with dirty := true, deferredDelete := false } }
      | none => s
    ensureTask (stageAlarm t s1)

/-- `setAlarm` with the broken-gate check (spec section 7: storage and alarm
operations after the gate is broken fail with the original error). -/
def setAlarm (t : Option Time) (s : St) : Except String St :=
  match s.broken with
  | some e => Except.error e
  | none => Except.ok (setAlarmCore t s)

/-- Modelled from the spec (invariant 4): `get_alarm()` returns the staged
pending value if one exists, else the committed value, except `none` while an
alarm handler is armed; fails with the broken error once the gate broke. -/
def getAlarm (s : St) : Except String (Option Time) :=
  match s.broken with
  | some e => Except.error e
  | none => Except.ok (if s.handler.isSome then none else effectiveAlarm s)

/-- `put(key, value)`: stages a write, ensures the root savepoint and arms a
commit (key/value payloads are abstracted away). -/
def put (s : St) : Except String St :=
  match s.broken with
  | some e => Except.error e
  | none => Except.ok (ensureTask { s with pendingWrite := true, rootOpen := true })

/-- Perform the synchronous sqlite commit (release of the root savepoint) and
issue the asynchronous durability callback.  `viaPipeline` records that the
committed alarm change was fully acknowledged by the scheduler beforehand;
`post` is a commit-first alarm change `(new, previouslyScheduled)` whose
`scheduleRun` is issued only after durability. -/
def commitAndCall (tid : Nat) (viaPipeline : Bool)
    (post : Option (Option Time × Option Time)) (s : St) : St :=
  let a := effectiveAlarm s
  let s1 :=
    { s with
      committedAlarm := a
      pendingAlarm := none
      pendingWrite := false
      rootOpen := false
      preTask := none }
  let (cid, s2) := issueCall ExtCall.commitCallback s1
  { s2 with
    tasks := s2.tasks ++ [⟨tid, PostPhase.waitCommit cid viaPipeline post⟩]
    events := s2.events ++ [Ev.dbCommit tid a viaPipeline post, Ev.commitCallStart tid cid] }

/-- Modelled from the spec (section 4.3 ordering rule): start a commit cycle.
An earlier-direction alarm change issues `scheduleRun` synchronously inside
the open transaction; a later-direction or cleared alarm (or a pure write)
commits first and schedules (if at all) after durability. -/
def startCycle (tid : Nat) (s : St) : St :=
  match s.pendingAlarm with
  | some v =>
    if isEarlier v s.scheduledAlarm then
      let (cid, s1) := issueCall (ExtCall.scheduleRun v) s
      { s1 with
        preTask := some (tid, PrePhase.waitSched cid v)
        scheduledAlarm := v
        events := s1.events ++ [Ev.schedStart tid cid v s.scheduledAlarm true s1.rootOpen] }
    else
      commitAndCall tid false
        (if v = s.scheduledAlarm then none else some (v, s.scheduledAlarm)) s
  | none => commitAndCall tid false none s

/-- Latch the first queued asynchronous failure into the broken state (spec
section 7: first failure latched, later unrelated failures discarded). -/
def latchFailures (s : St) : St :=
  match s.failureQueue with
  | [] => s
  | e :: _ =>
    match s.broken with
    | none =>
      { s with broken := some e, failureQueue := [], events := s.events ++ [Ev.brokenSet e] }
    | some _ => { s with failureQueue := [] }

/-- One event-loop poll: run the failure-handling task, then start the armed
commit cycle (if any and if the gate is intact). -/
def poll (s : St) : St :=
  let s1 := latchFailures s
  if s1.broken.isSome then s1
  else
    match s1.preTask with
    | some (tid, PrePhase.armed) => startCycle tid s1
    | _ => s1

/-- Complete a task: drop it and release every gate waiter whose observed
task set has drained.  Waiters released by the same completion are released
together, in one `releasedWaiters` event. -/
def completeTask (tid : Nat) (s : St) : St :=
  let s1 := { s with tasks := s.tasks.filter (fun t => t.tid ≠ tid) }
  let updated := s1.waiters.map (fun w => { w with waitingOn := w.waitingOn.erase tid })
  let rel := (updated.filter (fun w => w.waitingOn.isEmpty)).map (fun w => w.wid)
  let rem := updated.filter (fun w => !w.waitingOn.isEmpty)
  { s1 with
    waiters := rem
    events := if rel.isEmpty then s1.events else s1.events ++ [Ev.releasedWaiters rel] }

/-- Projection of a post-commit phase to its outstanding call id. -/
def postCid : PostPhase → Nat
  | PostPhase.waitCommit cid _ _ => cid
  | PostPhase.waitPostSched cid _ => cid

/-- Continuation after a pre-commit `scheduleRun` resolves.  Modelled from the
spec (section 4.3, "Coalescing"): if meanwhile the staged value moved to an
even earlier time, a follow-up `scheduleRun` with the latest value is issued;
if it matches the acknowledged value, the commit proceeds; if it moved later,
the commit proceeds and the follow-up `scheduleRun` happens after durability. -/
def fulfillSched (tid cid : Nat) (v : Option Time) (s : St) : St :=
  let eff := effectiveAlarm s
  let s1 := { s with events := s.events ++ [Ev.schedDone tid cid v] }
  if eff = v then
    commitAndCall tid true none s1
  else if isEarlier eff v then
    let (cid2, s2) := issueCall (ExtCall.scheduleRun eff) s1
    { s2 with
      preTask := some (tid, PrePhase.waitSched cid2 eff)
      scheduledAlarm := eff
      events := s2.events ++ [Ev.schedStart tid cid2 eff v true s2.rootOpen] }
  else
    commitAndCall tid false (some (eff, v)) s1

/-- Continuation after a post-commit call resolves: after the durability
callback, issue the deferred later-direction `scheduleRun` (if any); after a
post-commit `scheduleRun`, the task completes and releases its waiters. -/
def fulfillPost (cid : Nat) (s : St) : St :=
  match s.tasks.find? (fun t => postCid t.phase = cid) with
  | none => s
  | some t =>
    match t.phase with
    | PostPhase.waitCommit _ _ post =>
      let s1 := { s with events := s.events ++ [Ev.commitCallDone t.tid cid] }
      match post with
      | none => completeTask t.tid s1
      | some (v, prev) =>
        let (cid2, s2) := issueCall (ExtCall.scheduleRun v) s1
        { s2 with
          tasks := s2.tasks.map (fun x =>
            if x.tid = t.tid then ⟨x.tid, PostPhase.waitPostSched cid2 v⟩ else x)
          scheduledAlarm := v
          events := s2.events ++ [Ev.schedStart t.tid cid2 v prev false s2.rootOpen] }
    | PostPhase.waitPostSched _ v =>
      completeTask t.tid { s with events := s.events ++ [Ev.schedDone t.tid cid v] }

/-- The driver fulfills outstanding call `cid`; the owning continuation runs. -/
def fulfill (cid : Nat) (s : St) : St :=
  let s0 := { s with calls := s.calls.filter (fun c => c.1 ≠ cid) }
  match s0.preTask with
  | some (tid, PrePhase.waitSched cid0 v) =>
    if cid0 = cid then fulfillSched tid cid v { s0 with preTask := none } else fulfillPost cid s0
  | _ => fulfillPost cid s0

/-- The driver rejects outstanding call `cid` with error `e`: the owning task
dies (in particular a rejected pre-commit `scheduleRun` never attempts its
local commit) and the failure is queued for the asynchronous failure-handling
task. -/
def reject (cid : Nat) (e : String) (s : St) : St :=
  let s0 :=
    { s with
      calls := s.calls.filter (fun c => c.1 ≠ cid)
      failureQueue := s.failureQueue ++ [e] }
  match s0.preTask with
  | some (_, PrePhase.waitSched cid0 _) =>
    if cid0 = cid then { s0 with preTask := none }
    else { s0 with tasks := s0.tasks.filter (fun t => postCid t.phase ≠ cid) }
  | _ => { s0 with tasks := s0.tasks.filter (fun t => postCid t.phase ≠ cid) }

/-- Tasks currently holding the output gate. -/
def liveTids (s : St) : List Nat :=
  (match s.preTask with | some (tid, _) => [tid] | none => []) ++ s.tasks.map (fun t => t.tid)

/-- `gate.wait()`: a waiter over every currently live task; resolves
immediately when the gate is idle. -/
def gateWait (s : St) : St :=
  let ids := liveTids s
  if ids.isEmpty then
    { s with events := s.events ++ [Ev.releasedWaiters [s.nextWid]], nextWid := s.nextWid + 1 }
  else
    { s with waiters := s.waiters ++ [⟨s.nextWid, ids⟩], nextWid := s.nextWid + 1 }

/-- Modelled from the spec (section 4.4): `arm_alarm_handler(fire_time)`.
Cancels (no state change) unless the committed alarm matches the fire time;
otherwise arms the handler with deferred deletion, except when an alarm
change is already staged (validated by the test "dirty alarm during handler
does not cancel alarm"). -/
def armAlarmHandler (fire : Time) (s : St) : St :=
  if s.handler.isSome then s
  else if s.committedAlarm = some fire then
    { s with
      handler := some { fireTime := fire, deferredDelete := s.pendingAlarm.isNone, dirty := false } }
  else s

/-- Modelled from the spec (section 4.4, token drop): if the handler staged an
alarm write, that staged commit proceeds on its own; else if deferred deletion
is still on, stage `set_alarm(none)` with standard coupling; else leave the
alarm intact. -/
def dropHandler (s : St) : St :=
  match s.handler with
  | none => s
  | some h =>
    let s1 := { s with handler := none }
    if h.dirty then s1
    else if h.deferredDelete then setAlarmCore none s1
    else s1

/-- `cancel_deferred_alarm_deletion()`: idempotent, no-op outside a handler. -/
def cancelDeferredAlarmDeletion (s : St) : St :=
  match s.handler with
  | some h => { s with handler := some { h with deferredDelete := false } }
  | none => s

/-- `start_transaction()`: opens nested savepoint `_cf_savepoint_(depth)`. -/
def startTransaction (s : St) : St :=
  { s with txnDepth := s.txnDepth + 1 }

/-- `set_alarm` through an explicit transaction handle: stages only; the
commit machinery is engaged by the outermost explicit `commit()`. -/
def txnSetAlarm (t : Option Time) (s : St) : St :=
  if t = effectiveAlarm s then s else stageAlarm t s

/-- Explicit `txn.commit()`: a nested commit merely releases its savepoint and
never talks to the scheduler; the outermost commit starts the commit cycle
synchronously (validated by the test "alarm scheduling starts synchronously
before explicit local db commit"). -/
def txnCommit (s : St) : St :=
  match s.txnDepth with
  | 0 => s
  | Nat.succ d =>
    let s1 := { s with txnDepth := d }
    if d = 0 then
      if s1.pendingAlarm.isSome || s1.pendingWrite then
        match s1.preTask with
        | some _ => s1
        | none =>
          startCycle s1.nextTid
            { s1 with preTask := some (s1.nextTid, PrePhase.armed), nextTid := s1.nextTid + 1 }
      else s1
    else s1

/-- Driver actions, mirroring what the test harness can do to the
coordinator. -/
inductive Act where
  | setAlarmA (t : Option Time)
  | putA
  | pollA
  | fulfillA (cid : Nat)
  | rejectA (cid : Nat) (e : String)
  | gateWaitA
  | armA (fire : Time)
  | dropHandlerA
  | cancelA
  | startTxnA
  | txnSetAlarmA (t : Option Time)
  | txnCommitA
  deriving DecidableEq, Repr

/-- One driver step.  A failed (broken-gate) `setAlarm`/`put` leaves the state
unchanged. -/
def step (s : St) (a : Act) : St :=
  match a with
  | Act.setAlarmA t => match setAlarm t s with | Except.ok s2 => s2 | Except.error _ => s
  | Act.putA => match put s with | Except.ok s2 => s2 | Except.error _ => s
  | Act.pollA => poll s
  | Act.fulfillA cid => fulfill cid s
  | Act.rejectA cid e => reject cid e s
  | Act.gateWaitA => gateWait s
  | Act.armA f => armAlarmHandler f s
  | Act.dropHandlerA => dropHandler s
  | Act.cancelA => cancelDeferredAlarmDeletion s
  | Act.startTxnA => startTransaction s
  | Act.txnSetAlarmA t => txnSetAlarm t s
  | Act.txnCommitA => txnCommit s

/-- The freshly constructed coordinator: alarm unset, gate open, no handler. -/
def init : St := {}

/-- Run a driver script from the initial state. -/
def run (acts : List Act) : St := acts.foldl step init

/-- Trace property: every synchronous local commit of an alarm change whose
new value was fully acknowledged by the scheduler beforehand (the
earlier-direction coupling) is preceded by the completion of a `scheduleRun`
for exactly the committed alarm value. -/
def dbCommitOK (tr : List Ev) : Prop :=
  ∀ (i tid : Nat) (a : Option Time) (lc : Option (Option Time × Option Time)),
    tr[i]? = some (Ev.dbCommit tid a true lc) →
    ∃ j : Nat, j < i ∧ ∃ cid : Nat, tr[j]? = some (Ev.schedDone tid cid a)

/-- Trace property about `scheduleRun` issuance: a pre-commit call is only
made for an earlier-direction change and always inside the open root
savepoint; a post-commit call is only made for a later-direction (or `none`)
change and only after the issuing task's durability callback completed. -/
def schedOK (tr : List Ev) : Prop :=
  ∀ (i tid cid : Nat) (v prev : Option Time) (pre ro : Bool),
    tr[i]? = some (Ev.schedStart tid cid v prev pre ro) →
    (pre = true → isEarlier v prev = true ∧ ro = true) ∧
    (pre = false → isEarlier v prev = false ∧
      ∃ j : Nat, j < i ∧ ∃ cid2 : Nat, tr[j]? = some (Ev.commitCallDone tid cid2))

/-- Trace property: every commit-first alarm change records a later-direction
(or `none`) move with respect to the previously scheduled value. -/
def commitDirOK (tr : List Ev) : Prop :=
  ∀ (i tid : Nat) (a : Option Time) (vp : Bool) (v prev : Option Time),
    tr[i]? = some (Ev.dbCommit tid a vp (some (v, prev))) →
    isEarlier v prev = false

/-- The alarm value made durable by the last synchronous local commit in the
trace (`none` when no commit ever happened). -/
def lastDbAlarm (tr : List Ev) : Option Time :=
  tr.foldl (fun acc e => match e with | Ev.dbCommit _ a _ _ => a | _ => acc) none

/-- State property: every in-flight post-commit task that still owes a
`scheduleRun` owes one for a later-direction (or `none`) change. -/
def postDirOK (l : List Task) : Prop :=
  ∀ t ∈ l, ∀ (cid : Nat) (vp : Bool) (v prev : Option Time),
    t.phase = PostPhase.waitCommit cid vp (some (v, prev)) → isEarlier v prev = false

/-- The inductive invariant of the coordinator model: the pre-commit task
holds the root savepoint open, staged changes keep the root savepoint open,
in-flight post-commit schedules are later-direction, the cached committed
alarm agrees with the trace, and the three trace orderings hold. -/
structure Inv (s : St) : Prop where
  preRoot : s.preTask.isSome = true → s.rootOpen = true
  stagedRoot : (s.pendingAlarm.isSome || s.pendingWrite) = true → s.rootOpen = true
  postDir : postDirOK s.tasks
  commLast : s.committedAlarm = lastDbAlarm s.events
  trDb : dbCommitOK s.events
  trSched : schedOK s.events
  trDir : commitDirOK s.events

/-- Count of `scheduleRun` calls in a call log. -/
def countSched (l : List ExtCall) : Nat :=
  l.countP (fun c => match c with | ExtCall.scheduleRun _ => true | _ => false)

/-- Count of durability (`commit`) callbacks in a call log. -/
def countCommit (l : List ExtCall) : Nat :=
  l.countP (fun c => match c with | ExtCall.commitCallback => true | _ => false)

/-- The driver script of the test "multiple set-earlier in-flight alarms wait
for earliest before committing db": after initializing the committed alarm to
5ms, four earlier-direction updates (4ms, 3ms, 2ms, 1ms) overlap in-flight
scheduler calls, with a gate waiter registered after each update, and the
driver resolves calls exactly as the test does. -/
def coalesceScript : List Act :=
  [Act.setAlarmA (some 5), Act.pollA, Act.fulfillA 1, Act.fulfillA 2,
   Act.gateWaitA,
   Act.setAlarmA (some 4), Act.pollA,
   Act.gateWaitA,
   Act.setAlarmA (some 3), Act.pollA,
   Act.gateWaitA,
   Act.setAlarmA (some 2), Act.pollA,
   Act.gateWaitA,
   Act.fulfillA 3,
   Act.setAlarmA (some 1), Act.pollA,
   Act.gateWaitA,
   Act.fulfillA 4,
   Act.fulfillA 5,
   Act.fulfillA 6]

end ActorSqlite

namespace Tracing

/-- Modulus of the `uint32_t` counters (`sequenceCounter`, `spanCounter`) in
`StreamingTrace::Impl` (trace-streaming.c++). -/
def u32Mod : Nat := 2 ^ 32

/-- `EventOutcome` values, from the runtime enum referenced by
`eventOutcomeToSpanOutcome` in trace-streaming.c++. -/
inductive EventOutcome where
  | unknown
  | ok
  | canceled
  | responseStreamDisconnected
  | loadShed
  | exceededCpu
  | killSwitch
  | daemonDown
  | scriptNotFound
  | exceededMemory
  | exception
  deriving DecidableEq, Repr

/-- `trace::SpanClose::Outcome` values. -/
inductive SpanOutcome where
  | unknown
  | ok
  | canceled
  | exception
  deriving DecidableEq, Repr

/-- Embeds `eventOutcomeToSpanOutcome` (trace-streaming.c++, lines 64-90). -/
def eventOutcomeToSpanOutcome : EventOutcome → SpanOutcome
  | EventOutcome.unknown => SpanOutcome.unknown
  | EventOutcome.ok => SpanOutcome.ok
  | EventOutcome.responseStreamDisconnected => SpanOutcome.canceled
  | EventOutcome.canceled => SpanOutcome.canceled
  | EventOutcome.loadShed => SpanOutcome.exception
  | EventOutcome.exceededCpu => SpanOutcome.exception
  | EventOutcome.killSwitch => SpanOutcome.exception
  | EventOutcome.daemonDown => SpanOutcome.exception
  | EventOutcome.scriptNotFound => SpanOutcome.exception
  | EventOutcome.exceededMemory => SpanOutcome.exception
  | EventOutcome.exception => SpanOutcome.exception

/-- Payload kinds of a `StreamEvent` (payload contents abstracted; only the
tag and the fields the claims mention are kept). -/
inductive Payload where
  | onset
  | outcome (o : EventOutcome)
  | dropped (startSeq endSeq : Nat)
  | spanClose (o : SpanOutcome)
  | logP
  | exceptionP
  | mark
  deriving DecidableEq, Repr

/-- One `StreamEvent` as handed to the delegate: the span coordinates, the
sequence number assigned at emission, and the payload (session id and
timestamp abstracted). -/
structure StreamEvent where
  spanId : Nat
  parent : Nat
  seq : Nat
  payload : Payload
  deriving DecidableEq, Repr

/-- A span object of the session: its id, its parent id, whether its `impl`
is still alive (`isOpen`), and its child span objects in insertion order.
The C++ keeps only live children linked in the intrusive list and unlinks a
child when it closes; here closed children are kept but flagged, which
preserves all observable behavior while keeping paths stable. -/
inductive SpanT where
  | mk (id : Nat) (parent : Nat) (isOpen : Bool) (children : List SpanT)

/-- Span id. -/
def SpanT.sid : SpanT → Nat
  | SpanT.mk i _ _ _ => i

/-- Whether the span's impl is still alive. -/
def SpanT.opened : SpanT → Bool
  | SpanT.mk _ _ o _ => o

/-- Child spans, in insertion order. -/
def SpanT.childList : SpanT → List SpanT
  | SpanT.mk _ _ _ cs => cs

/-- State of a `StreamingTrace` session: whether `impl` is gone (`closed`),
whether `onsetInfo.info` was set, the two `uint32_t` counters, the live
stage-span list, and the stream of events delivered to the delegate. -/
structure TSt where
  closed : Bool := false
  infoSet : Bool := false
  seqCounter : Nat := 0
  spanCounter : Nat := 0
  children : List SpanT := []
  emitted : List StreamEvent := []

/-- Emit one `StreamEvent`: the sequence number is assigned at emission time
by `getNextSequence()` (post-increment of the `uint32_t` counter). -/
def emit (spanId parent : Nat) (p : Payload) (s : TSt) : TSt :=
  { s with
    emitted := s.emitted ++ [⟨spanId, parent, s.seqCounter, p⟩]
    seqCounter := (s.seqCounter + 1) % u32Mod }

/-- Embeds `StreamingTrace::setEventInfo`: records the onset info (at most
once) and emits the `Onset` event on the root span. -/
def setEventInfo (s : TSt) : TSt :=
  if s.closed then s
  else if s.infoSet then s
  else emit 0 0 Payload.onset { s with infoSet := true }

mutual

/-- Close a span (`Span::setOutcome`): if its impl is alive, first close all
live children in insertion order with the same outcome, then emit the span's
own `SpanClose` and drop the impl.  A closed span is left untouched. -/
def closeSpan (o : SpanOutcome) : SpanT → TSt → SpanT × TSt
  | SpanT.mk i par true cs, s =>
    let (cs2, s2) := closeSpanList o cs s
    let s3 := emit i par (Payload.spanClose o) s2
    (SpanT.mk i par false cs2, s3)
  | SpanT.mk i par false cs, s => (SpanT.mk i par false cs, s)

/-- Close a list of spans left to right. -/
def closeSpanList (o : SpanOutcome) : List SpanT → TSt → List SpanT × TSt
  | [], s => ([], s)
  | t :: ts, s =>
    let (t2, s2) := closeSpan o t s
    let (ts2, s3) := closeSpanList o ts s2
    (t2 :: ts2, s3)

end

/-- Embeds `StreamingTrace::setOutcome`: a no-op on a closed session; when
the onset info was never set, the session is closed without emitting
anything; otherwise all live stage spans are cascade-closed with the mapped
span outcome, the `Outcome` event is emitted, and the impl is dropped. -/
def setOutcome (o : EventOutcome) (s : TSt) : TSt :=
  if s.closed then s
  else if s.infoSet = false then { s with closed := true }
  else
    let (cs2, s2) := closeSpanList (eventOutcomeToSpanOutcome o) s.children s
    let s3 := emit 0 0 (Payload.outcome o) { s2 with children := cs2 }
    { s3 with closed := true }

/-- Embeds `StreamingTrace::~StreamingTrace`: a session dropped while alive
sets outcome `UNKNOWN`. -/
def destroy (s : TSt) : TSt :=
  if s.closed then s else setOutcome EventOutcome.unknown s

/-- Embeds `StreamingTrace::addDropped` (requires the onset info). -/
def addDropped (a b : Nat) (s : TSt) : TSt :=
  if s.closed then s
  else if s.infoSet = false then s
  else emit 0 0 (Payload.dropped a b) s

/-- Root-span event emission (`StreamingTrace::addLog` etc.; requires the
onset info; no-op on a closed session). -/
def addRootEvent (p : Payload) (s : TSt) : TSt :=
  if s.closed then s
  else if s.infoSet = false then s
  else emit 0 0 p s

/-- Apply a stateful span transformer to the `i`-th element of a span list. -/
def opNth (g : SpanT → TSt → SpanT × TSt) : Nat → List SpanT → TSt → List SpanT × TSt
  | _, [], s => ([], s)
  | 0, t :: ts, s =>
    let (t2, s2) := g t s
    (t2 :: ts, s2)
  | Nat.succ n, t :: ts, s =>
    let (ts2, s2) := opNth g n ts s
    (t :: ts2, s2)

/-- Apply a stateful span transformer to the span reached by a path of child
indices (empty path: this span). -/
def opAtPath (g : SpanT → TSt → SpanT × TSt) : List Nat → SpanT → TSt → SpanT × TSt
  | [], t, s => g t s
  | i :: rest, SpanT.mk id par op cs, s =>
    let (cs2, s2) := opNth (opAtPath g rest) i cs s
    (SpanT.mk id par op cs2, s2)

/-- Apply a stateful span transformer at a path starting from the session's
stage-span list. -/
def opAtRoot (g : SpanT → TSt → SpanT × TSt) (p : List Nat) (s : TSt) : TSt :=
  match p with
  | [] => s
  | i :: rest =>
    let (cs2, s2) := opNth (opAtPath g rest) i s.children s
    { s2 with children := cs2 }

/-- Span event emission (`Span::addLog` etc.): emits only while the span's
impl is alive; a closed span is a silent no-op. -/
def spanEmitOp (p : Payload) (t : SpanT) (s : TSt) : SpanT × TSt :=
  match t with
  | SpanT.mk i par true cs => (SpanT.mk i par true cs, emit i par p s)
  | SpanT.mk i par false cs => (SpanT.mk i par false cs, s)

/-- `Span::newChildSpan`: on a live span, allocates the next span id
(pre-increment of the `uint32_t` counter, `getNextSpanId`) and links a new
live child at the end of the child list; no event is emitted at creation. -/
def newChildOp (t : SpanT) (s : TSt) : SpanT × TSt :=
  match t with
  | SpanT.mk i par true cs =>
    let nid := (s.spanCounter + 1) % u32Mod
    (SpanT.mk i par true (cs ++ [SpanT.mk nid i true []]), { s with spanCounter := nid })
  | SpanT.mk i par false cs => (SpanT.mk i par false cs, s)

/-- `StreamingTrace::newChildSpan` (stage spans): requires the onset info;
returns none (no-op) on a closed session. -/
def newStageSpan (s : TSt) : TSt :=
  if s.closed then s
  else if s.infoSet = false then s
  else
    let nid := (s.spanCounter + 1) % u32Mod
    { s with spanCounter := nid, children := s.children ++ [SpanT.mk nid 0 true []] }

/-- `Span::setOutcome` addressed by path. -/
def spanSetOutcome (p : List Nat) (o : SpanOutcome) (s : TSt) : TSt :=
  if s.closed then s else opAtRoot (closeSpan o) p s

/-- `Span::addLog`-style emission addressed by path. -/
def spanAddEvent (p : List Nat) (pay : Payload) (s : TSt) : TSt :=
  if s.closed then s else opAtRoot (spanEmitOp pay) p s

/-- `Span::newChildSpan` addressed by path. -/
def spanNewChild (p : List Nat) (s : TSt) : TSt :=
  if s.closed then s else opAtRoot newChildOp p s

/-- Driver actions on a trace session. -/
inductive TAct where
  | setEventInfoA
  | setOutcomeA (o : EventOutcome)
  | destroyA
  | addDroppedA (a b : Nat)
  | addRootEventA (p : Payload)
  | newStageSpanA
  | spanSetOutcomeA (p : List Nat) (o : SpanOutcome)
  | spanAddEventA (p : List Nat) (pay : Payload)
  | spanNewChildA (p : List Nat)
  deriving Repr

/-- One driver step on a trace session. -/
def tstep (s : TSt) (a : TAct) : TSt :=
  match a with
  | TAct.setEventInfoA => setEventInfo s
  | TAct.setOutcomeA o => setOutcome o s
  | TAct.destroyA => destroy s
  | TAct.addDroppedA a b => addDropped a b s
  | TAct.addRootEventA p => addRootEvent p s
  | TAct.newStageSpanA => newStageSpan s
  | TAct.spanSetOutcomeA p o => spanSetOutcome p o s
  | TAct.spanAddEventA p pay => spanAddEvent p pay s
  | TAct.spanNewChildA p => spanNewChild p s

/-- A fresh session (`StreamingTrace::create`): the `Onset` payload is stored
but nothing is emitted until `setEventInfo`. -/
def tinit : TSt := {}

/-- Run a driver script on a fresh session. -/
def trun (acts : List TAct) : TSt := acts.foldl tstep tinit

/-- The sequence numbers of the delivered events, in delivery order. -/
def seqList (s : TSt) : List Nat :=
  s.emitted.map (fun e => e.seq)

/-- The emission-counter characterization: the `uint32_t` sequence counter is
the number of delivered events modulo `2^32`, and the `k`-th delivered event
carries sequence number `k % 2^32`. -/
def SeqInvariant (s : TSt) : Prop :=
  s.seqCounter = s.emitted.length % u32Mod ∧
  seqList s = (List.range s.emitted.length).map (fun k => k % u32Mod)

/-- The (counter, delivered-events) pairs reachable from a given pair by
repeatedly emitting events; every trace operation moves the emission state
along this relation. -/
inductive SeqReach : Nat × List StreamEvent → Nat × List StreamEvent → Prop where
  | refl (x : Nat × List StreamEvent) : SeqReach x x
  | emitStep (x : Nat × List StreamEvent) (c : Nat) (l : List StreamEvent)
      (a b : Nat) (p : Payload) :
      SeqReach x (c, l) → SeqReach x ((c + 1) % u32Mod, l ++ [⟨a, b, c, p⟩])

/-- Projection of a session state to its emission state. -/
def seqPart (s : TSt) : Nat × List StreamEvent :=
  (s.seqCounter, s.emitted)

mutual

/-- Specification of the closing cascade: the `(id, parent)` pairs of the
spans whose `SpanClose` events a `setOutcome` call on this span emits, in
emission order — all live descendants in post-order (children in insertion
order, each subtree before its own close), the span's own close last. -/
def openCloseIds : SpanT → List (Nat × Nat)
  | SpanT.mk i par true cs => openCloseIdsList cs ++ [(i, par)]
  | SpanT.mk _ _ false _ => []

/-- Cascade specification for a list of sibling spans, left to right. -/
def openCloseIdsList : List SpanT → List (Nat × Nat)
  | [] => []
  | t :: ts => openCloseIds t ++ openCloseIdsList ts

end

mutual

/-- Whether every span in the subtree is closed. -/
def allClosed : SpanT → Bool
  | SpanT.mk _ _ op cs => !op && allClosedList cs

/-- Whether every span in a forest is closed. -/
def allClosedList : List SpanT → Bool
  | [] => true
  | t :: ts => allClosed t && allClosedList ts

end

/-- Look up the span reached by a path of child indices below a span. -/
def spanAtPath : List Nat → SpanT → Option SpanT
  | [], t => some t
  | i :: rest, t =>
    match t.childList[i]? with
    | some c => spanAtPath rest c
    | none => none

/-- Look up the span object addressed by a path in a session. -/
def spanAt (s : TSt) (p : List Nat) : Option SpanT :=
  match p with
  | [] => none
  | i :: rest =>
    match s.children[i]? with
    | some c => spanAtPath rest c
    | none => none

/-- A flood of `n` root-level `Mark` events. -/
def markFlood (n : Nat) : List TAct :=
  List.replicate n (TAct.addRootEventA Payload.mark)

/-- A session that sets its onset info and then emits `2^32` further events:
together with the `Onset` event the session delivers `2^32 + 1` events, so
the `uint32_t` sequence counter wraps. -/
def overflowScript : List TAct :=
  TAct.setEventInfoA :: markFlood u32Mod

/-- Emission-state invariant on a (counter, delivered-events) pair: the
`uint32_t` sequence counter equals the number of delivered events modulo
`2^32`, and the `k`-th delivered event carries sequence number `k % 2^32`. -/
def SeqPairOK (x : Nat × List StreamEvent) : Prop :=
  x.1 = x.2.length % u32Mod ∧
  x.2.map (fun e => e.seq) = (List.range x.2.length).map (fun k => k % u32Mod)

/-- Sessions whose onset info was never set have delivered nothing and own no
spans. -/
def InfoInv (s : TSt) : Prop :=
  s.infoSet = false → (s.emitted = [] ∧ s.children = [])

theorem emitted_map_emit (i par : Nat) (p : Payload) (s : TSt) :
    (emit i par p s).emitted.map (fun e => (e.spanId, e.parent, e.payload)) =
      s.emitted.map (fun e => (e.spanId, e.parent, e.payload)) ++ [(i, par, p)] := by
  simp [emit]

mutual

theorem closeSpan_emits (o : SpanOutcome) (t : SpanT) (s : TSt) :
    (closeSpan o t s).2.emitted.map (fun e => (e.spanId, e.parent, e.payload)) =
      s.emitted.map (fun e => (e.spanId, e.parent, e.payload)) ++
        (openCloseIds t).map (fun q => (q.1, q.2, Payload.spanClose o)) :=
  match t with
  | SpanT.mk i par true cs => by
    have ih := closeSpanList_emits o cs s
    rcases hcl : closeSpanList o cs s with ⟨cs2, s2⟩
    rw [hcl] at ih
    simp only [closeSpan, hcl, openCloseIds]
    rw [emitted_map_emit, ih]
    simp [List.append_assoc]
  | SpanT.mk i par false cs => by
    simp only [closeSpan, openCloseIds]
    simp

theorem closeSpanList_emits (o : SpanOutcome) (ts : List SpanT) (s : TSt) :
    (closeSpanList o ts s).2.emitted.map (fun e => (e.spanId, e.parent, e.payload)) =
      s.emitted.map (fun e => (e.spanId, e.parent, e.payload)) ++
        (openCloseIdsList ts).map (fun q => (q.1, q.2, Payload.spanClose o)) :=
  match ts with
  | [] => by
    simp only [closeSpanList, openCloseIdsList]
    simp
  | t :: rest => by
    have ih1 := closeSpan_emits o t s
    rcases hc : closeSpan o t s with ⟨t2, s2⟩
    rw [hc] at ih1
    have ih2 := closeSpanList_emits o rest s2
    rcases hcl : closeSpanList o rest s2 with ⟨rest2, s3⟩
    rw [hcl] at ih2
    simp only [closeSpanList, hc, hcl, openCloseIdsList]
    rw [ih2, ih1]
    simp [List.append_assoc]

end

theorem closeSpan_closes (o : SpanOutcome) (t : SpanT) (s : TSt) :
    (closeSpan o t s).1.opened = false :=
  match t with
  | SpanT.mk i par true cs => by
    rcases hcl : closeSpanList o cs s with ⟨cs2, s2⟩
    simp only [closeSpan, hcl]
    rfl
  | SpanT.mk i par false cs => by
    simp only [closeSpan]
    rfl

theorem closeSpan_closed_noop (o : SpanOutcome) (t : SpanT) (s : TSt)
    (h : t.opened = false) : closeSpan o t s = (t, s) :=
  match t with
  | SpanT.mk i par true cs => absurd h (by simp [SpanT.opened])
  | SpanT.mk i par false cs => by simp only [closeSpan]

theorem spanEmitOp_closed_noop (p : Payload) (t : SpanT) (s : TSt)
    (h : t.opened = false) : spanEmitOp p t s = (t, s) :=
  match t with
  | SpanT.mk i par true cs => absurd h (by simp [SpanT.opened])
  | SpanT.mk i par false cs => by simp only [spanEmitOp]

/-- Claim C9: `Span::setOutcome` on a live span emits exactly the `SpanClose`
events of its live descendants in post-order — each child subtree in
insertion order, each child closing before its parent, the span's own
`SpanClose` last (first conjunct, with `openCloseIds` spelling out
children-first-self-last; second conjunct); afterwards the span is closed
(third conjunct), a second `setOutcome` is a silent no-op emitting nothing
(fourth conjunct), and every event-emission method on a closed span is a
silent no-op (fifth conjunct). -/
theorem claim_C9 (o : SpanOutcome) (t : SpanT) (s : TSt) :
    ((closeSpan o t s).2.emitted.map (fun e => (e.spanId, e.parent, e.payload)) =
       s.emitted.map (fun e => (e.spanId, e.parent, e.payload)) ++
         (openCloseIds t).map (fun q => (q.1, q.2, Payload.spanClose o))) ∧
    (∀ i par cs, t = SpanT.mk i par true cs →
       openCloseIds t = openCloseIdsList cs ++ [(i, par)]) ∧
    ((closeSpan o t s).1.opened = false) ∧
    (t.opened = false → closeSpan o t s = (t, s)) ∧
    (∀ p : Payload, t.opened = false → spanEmitOp p t s = (t, s)) := by
  refine ⟨closeSpan_emits o t s, ?_, closeSpan_closes o t s,
    closeSpan_closed_noop o t s, fun p => spanEmitOp_closed_noop p t s⟩
  intro i par cs ht
  subst ht
  rfl

/-- Witness for C9 at a concrete span tree: closing a live span with a live
child emits the child close then the own close; a closed span is untouched
by `setOutcome` and by event emission. -/
theorem claim_C9_witness :
    ((closeSpan SpanOutcome.ok (SpanT.mk 1 0 true [SpanT.mk 2 1 true []])
        tinit).2.emitted.map (fun e => (e.spanId, e.parent, e.payload)) =
      tinit.emitted.map (fun e => (e.spanId, e.parent, e.payload)) ++
        (openCloseIds (SpanT.mk 1 0 true [SpanT.mk 2 1 true []])).map
          (fun q => (q.1, q.2, Payload.spanClose SpanOutcome.ok))) ∧
    openCloseIds (SpanT.mk 1 0 true [SpanT.mk 2 1 true []]) =
      openCloseIdsList [SpanT.mk 2 1 true []] ++ [(1, 0)] ∧
    (closeSpan SpanOutcome.ok (SpanT.mk 1 0 true [SpanT.mk 2 1 true []])
      tinit).1.opened = false ∧
    closeSpan SpanOutcome.ok (SpanT.mk 3 1 false []) tinit =
      (SpanT.mk 3 1 false [], tinit) ∧
    spanEmitOp Payload.logP (SpanT.mk 3 1 false []) tinit =
      (SpanT.mk 3 1 false [], tinit) := by
  have h1 := claim_C9 SpanOutcome.ok (SpanT.mk 1 0 true [SpanT.mk 2 1 true []]) tinit
  have h2 := claim_C9 SpanOutcome.ok (SpanT.mk 3 1 false []) tinit
  exact ⟨h1.1, h1.2.1 1 0 [SpanT.mk 2 1 true []] rfl, h1.2.2.1,
    h2.2.2.2.1 rfl, h2.2.2.2.2 Payload.logP rfl⟩

theorem spanEmitOp_infoSet (p : Payload) (t : SpanT) (s : TSt) :
    ((spanEmitOp p t s).2).infoSet = s.infoSet :=
  match t with
  | SpanT.mk i par true cs => rfl
  | SpanT.mk i par false cs => rfl

theorem newChildOp_infoSet (t : SpanT) (s : TSt) :
    ((newChildOp t s).2).infoSet = s.infoSet :=
  match t with
  | SpanT.mk i par true cs => rfl
  | SpanT.mk i par false cs => rfl

mutual

theorem closeSpan_infoSet (o : SpanOutcome) (t : SpanT) (s : TSt) :
    ((closeSpan o t s).2).infoSet = s.infoSet :=
  match t with
  | SpanT.mk i par true cs => by
    have ih := closeSpanList_infoSet o cs s
    rcases hcl : closeSpanList o cs s with ⟨cs2, s2⟩
    rw [hcl] at ih
    simp only [closeSpan, hcl]
    rw [← ih]
    rfl
  | SpanT.mk i par false cs => by
    simp only [closeSpan]

theorem closeSpanList_infoSet (o : SpanOutcome) (ts : List SpanT) (s : TSt) :
    ((closeSpanList o ts s).2).infoSet = s.infoSet :=
  match ts with
  | [] => by
    simp only [closeSpanList]
  | t :: rest => by
    have ih1 := closeSpan_infoSet o t s
    rcases hc : closeSpan o t s with ⟨t2, s2⟩
    rw [hc] at ih1
    have ih2 := closeSpanList_infoSet o rest s2
    rcases hcl : closeSpanList o rest s2 with ⟨rest2, s3⟩
    rw [hcl] at ih2
    simp only [closeSpanList, hc, hcl]
    rw [ih2, ih1]

end

theorem opNth_infoSet (g : SpanT → TSt → SpanT × TSt)
    (hg : ∀ (t : SpanT) (s : TSt), ((g t s).2).infoSet = s.infoSet) :
    ∀ (i : Nat) (ts : List SpanT) (s : TSt),
      ((opNth g i ts s).2).infoSet = s.infoSet
  | _, [], s => by
    simp only [opNth]
  | 0, t :: ts, s => by
    have h1 := hg t s
    rcases hgt : g t s with ⟨t2, s2⟩
    rw [hgt] at h1
    simp only [opNth, hgt]
    exact h1
  | Nat.succ n, t :: ts, s => by
    have h1 := opNth_infoSet g hg n ts s
    rcases ho : opNth g n ts s with ⟨ts2, s2⟩
    rw [ho] at h1
    simp only [opNth, ho]
    exact h1

theorem opAtPath_infoSet (g : SpanT → TSt → SpanT × TSt)
    (hg : ∀ (t : SpanT) (s : TSt), ((g t s).2).infoSet = s.infoSet) :
    ∀ (p : List Nat) (t : SpanT) (s : TSt),
      ((opAtPath g p t s).2).infoSet = s.infoSet
  | [], t, s => hg t s
  | i :: rest, SpanT.mk id par op cs, s => by
    have h1 := opNth_infoSet (opAtPath g rest)
      (fun t2 s2 => opAtPath_infoSet g hg rest t2 s2) i cs s
    rcases ho : opNth (opAtPath g rest) i cs s with ⟨cs2, s2⟩
    rw [ho] at h1
    simp only [opAtPath, ho]
    exact h1

theorem opAtRoot_infoSet (g : SpanT → TSt → SpanT × TSt)
    (hg : ∀ (t : SpanT) (s : TSt), ((g t s).2).infoSet = s.infoSet)
    (p : List Nat) (s : TSt) : (opAtRoot g p s).infoSet = s.infoSet := by
  match p with
  | [] => rfl
  | i :: rest =>
    have h1 := opNth_infoSet (opAtPath g rest)
      (fun t2 s2 => opAtPath_infoSet g hg rest t2 s2) i s.children s
    rcases ho : opNth (opAtPath g rest) i s.children s with ⟨cs2, s2⟩
    rw [ho] at h1
    simp only [opAtRoot, ho]
    exact h1

theorem opAtRoot_nil_children (g : SpanT → TSt → SpanT × TSt) (p : List Nat)
    (s : TSt) (h : s.children = []) :
    (opAtRoot g p s).emitted = s.emitted ∧ (opAtRoot g p s).children = [] :=
  match p with
  | [] => ⟨rfl, h⟩
  | i :: rest => by
    simp only [opAtRoot, h, opNth]
    exact ⟨by trivial, by trivial⟩

theorem infoInv_setEventInfo (s : TSt) (h : InfoInv s) :
    InfoInv (setEventInfo s) := by
  unfold setEventInfo
  by_cases h1 : s.closed = true
  · rw [if_pos h1]
    exact h
  · rw [if_neg h1]
    by_cases h2 : s.infoSet = true
    · rw [if_pos h2]
      exact h
    · rw [if_neg h2]
      intro hcontra
      simp [emit] at hcontra

theorem infoInv_setOutcome (o : EventOutcome) (s : TSt) (h : InfoInv s) :
    InfoInv (setOutcome o s) := by
  unfold setOutcome
  by_cases h1 : s.closed = true
  · rw [if_pos h1]
    exact h
  · rw [if_neg h1]
    by_cases h2 : s.infoSet = false
    · rw [if_pos h2]
      intro _
      exact h h2
    · rw [if_neg h2]
      dsimp only
      rcases hcl : closeSpanList (eventOutcomeToSpanOutcome o) s.children s
        with ⟨cs2, s2⟩
      intro hcontra
      have hinfo := closeSpanList_infoSet (eventOutcomeToSpanOutcome o)
        s.children s
      rw [hcl] at hinfo
      simp only [emit] at hcontra
      rw [hinfo] at hcontra
      exact absurd hcontra (by simpa using h2)

theorem infoInv_destroy (s : TSt) (h : InfoInv s) : InfoInv (destroy s) := by
  unfold destroy
  by_cases h1 : s.closed = true
  · rw [if_pos h1]
    exact h
  · rw [if_neg h1]
    exact infoInv_setOutcome EventOutcome.unknown s h

theorem infoInv_addDropped (a b : Nat) (s : TSt) (h : InfoInv s) :
    InfoInv (addDropped a b s) := by
  unfold addDropped
  by_cases h1 : s.closed = true
  · rw [if_pos h1]
    exact h
  · rw [if_neg h1]
    by_cases h2 : s.infoSet = false
    · rw [if_pos h2]
      exact h
    · rw [if_neg h2]
      intro hcontra
      simp only [emit] at hcontra
      exact absurd hcontra (by simpa using h2)

theorem infoInv_addRootEvent (p : Payload) (s : TSt) (h : InfoInv s) :
    InfoInv (addRootEvent p s) := by
  unfold addRootEvent
  by_cases h1 : s.closed = true
  · rw [if_pos h1]
    exact h
  · rw [if_neg h1]
    by_cases h2 : s.infoSet = false
    · rw [if_pos h2]
      exact h
    · rw [if_neg h2]
      intro hcontra
      simp only [emit] at hcontra
      exact absurd hcontra (by simpa using h2)

theorem infoInv_newStageSpan (s : TSt) (h : InfoInv s) :
    InfoInv (newStageSpan s) := by
  unfold newStageSpan
  by_cases h1 : s.closed = true
  · rw [if_pos h1]
    exact h
  · rw [if_neg h1]
    by_cases h2 : s.infoSet = false
    · rw [if_pos h2]
      exact h
    · rw [if_neg h2]
      intro hcontra
      exact absurd hcontra (by simpa using h2)

theorem infoInv_opAtRoot (g : SpanT → TSt → SpanT × TSt)
    (hg : ∀ (t : SpanT) (s : TSt), ((g t s).2).infoSet = s.infoSet)
    (p : List Nat) (s : TSt) (h : InfoInv s) : InfoInv (opAtRoot g p s) := by
  intro hinfo
  rw [opAtRoot_infoSet g hg p s] at hinfo
  obtain ⟨he, hc⟩ := h hinfo
  have h2 := opAtRoot_nil_children g p s hc
  rw [he] at h2
  exact h2

theorem infoInv_spanSetOutcome (p : List Nat) (o : SpanOutcome) (s : TSt)
    (h : InfoInv s) : InfoInv (spanSetOutcome p o s) := by
  unfold spanSetOutcome
  by_cases h1 : s.closed = true
  · rw [if_pos h1]
    exact h
  · rw [if_neg h1]
    exact infoInv_opAtRoot (closeSpan o)
      (fun t2 s2 => closeSpan_infoSet o t2 s2) p s h

theorem infoInv_spanAddEvent (p : List Nat) (pay : Payload) (s : TSt)
    (h : InfoInv s) : InfoInv (spanAddEvent p pay s) := by
  unfold spanAddEvent
  by_cases h1 : s.closed = true
  · rw [if_pos h1]
    exact h
  · rw [if_neg h1]
    exact infoInv_opAtRoot (spanEmitOp pay)
      (fun t2 s2 => spanEmitOp_infoSet pay t2 s2) p s h

theorem infoInv_spanNewChild (p : List Nat) (s : TSt) (h : InfoInv s) :
    InfoInv (spanNewChild p s) := by
  unfold spanNewChild
  by_cases h1 : s.closed = true
  · rw [if_pos h1]
    exact h
  · rw [if_neg h1]
    exact infoInv_opAtRoot newChildOp
      (fun t2 s2 => newChildOp_infoSet t2 s2) p s h

theorem infoInv_tstep (s : TSt) (a : TAct) (h : InfoInv s) :
    InfoInv (tstep s a) := by
  cases a with
  | setEventInfoA => exact infoInv_setEventInfo s h
  | setOutcomeA o => exact infoInv_setOutcome o s h
  | destroyA => exact infoInv_destroy s h
  | addDroppedA a b => exact infoInv_addDropped a b s h
  | addRootEventA p => exact infoInv_addRootEvent p s h
  | newStageSpanA => exact infoInv_newStageSpan s h
  | spanSetOutcomeA p o => exact infoInv_spanSetOutcome p o s h
  | spanAddEventA p pay => exact infoInv_spanAddEvent p pay s h
  | spanNewChildA p => exact infoInv_spanNewChild p s h

theorem infoInv_trun (acts : List TAct) : InfoInv (trun acts) := by
  unfold trun
  suffices hgen : ∀ s : TSt, InfoInv s → InfoInv (acts.foldl tstep s) by
    refine hgen tinit ?_
    intro _
    exact ⟨rfl, rfl⟩
  induction acts with
  | nil => exact fun s hs => hs
  | cons a rest ih =>
    exact fun s hs => ih (tstep s a) (infoInv_tstep s a hs)

/-- Claim C10: a session whose onset info was never set has delivered no
events at all; `setOutcome` on it (and hence the implicit `setOutcome` of
the destructor) leaves the delivered stream empty — no `Onset` and no
`Outcome` event — and, if the session was still alive, merely marks it
closed without emitting anything. -/
theorem claim_C10 (acts : List TAct) (o : EventOutcome)
    (h : (trun acts).infoSet = false) :
    (trun acts).emitted = [] ∧
    (setOutcome o (trun acts)).emitted = [] ∧
    (destroy (trun acts)).emitted = [] ∧
    ((trun acts).closed = false →
      setOutcome o (trun acts) = { trun acts with closed := true }) := by
  obtain ⟨he, hc⟩ := infoInv_trun acts h
  have hso : ∀ o2 : EventOutcome, setOutcome o2 (trun acts) =
      if (trun acts).closed = true then trun acts
      else { trun acts with closed := true } := by
    intro o2
    unfold setOutcome
    by_cases h1 : (trun acts).closed = true
    · rw [if_pos h1, if_pos h1]
    · rw [if_neg h1, if_neg h1, if_pos h]
  refine ⟨he, ?_, ?_, ?_⟩
  · rw [hso o]
    by_cases h1 : (trun acts).closed = true
    · rw [if_pos h1]
      exact he
    · rw [if_neg h1]
      exact he
  · unfold destroy
    by_cases h1 : (trun acts).closed = true
    · rw [if_pos h1]
      exact he
    · rw [if_neg h1, hso EventOutcome.unknown, if_neg h1]
      exact he
  · intro h1
    rw [hso o, if_neg (by simp [h1])]

/-- Witness for C10: a session that opens a stage span and logs without ever
setting the onset info delivers nothing, and `setOutcome`/`destroy` on it
deliver nothing either. -/
theorem claim_C10_witness :
    (trun [TAct.newStageSpanA, TAct.addRootEventA Payload.logP]).infoSet =
      false ∧
    (trun [TAct.newStageSpanA, TAct.addRootEventA Payload.logP]).emitted =
      [] ∧
    (setOutcome EventOutcome.ok
      (trun [TAct.newStageSpanA, TAct.addRootEventA Payload.logP])).emitted =
      [] ∧
    (destroy
      (trun [TAct.newStageSpanA, TAct.addRootEventA Payload.logP])).emitted =
      [] := by
  have h := claim_C10 [TAct.newStageSpanA, TAct.addRootEventA Payload.logP]
    EventOutcome.ok rfl
  exact ⟨rfl, h.1, h.2.1, h.2.2.1⟩

end Tracing

namespace ActorSqlite

theorem getElem?_list_one {α : Type} {a e : α} {k : Nat} (h : [a][k]? = some e) :
    k = 0 ∧ e = a := by
  match k with
  | 0 => simp at h; exact ⟨rfl, h.symm⟩
  | k + 1 => simp at h

theorem getElem?_list_two {α : Type} {a b e : α} {k : Nat} (h : [a, b][k]? = some e) :
    (k = 0 ∧ e = a) ∨ (k = 1 ∧ e = b) := by
  match k with
  | 0 => simp at h; exact Or.inl ⟨rfl, h.symm⟩
  | 1 => simp at h; exact Or.inr ⟨rfl, h.symm⟩
  | k + 2 => simp at h

theorem getElem?_list_three {α : Type} {a b c e : α} {k : Nat} (h : [a, b, c][k]? = some e) :
    (k = 0 ∧ e = a) ∨ (k = 1 ∧ e = b) ∨ (k = 2 ∧ e = c) := by
  match k with
  | 0 => simp at h; exact Or.inl ⟨rfl, h.symm⟩
  | 1 => simp at h; exact Or.inr (Or.inl ⟨rfl, h.symm⟩)
  | 2 => simp at h; exact Or.inr (Or.inr ⟨rfl, h.symm⟩)
  | k + 3 => simp at h

theorem dbCommitOK_append {tr B : List Ev} (h : dbCommitOK tr)
    (hB : ∀ (k tid : Nat) (a : Option Time) (lc : Option (Option Time × Option Time)),
      B[k]? = some (Ev.dbCommit tid a true lc) →
      ∃ j : Nat, j < tr.length + k ∧ ∃ cid : Nat,
        (tr ++ B)[j]? = some (Ev.schedDone tid cid a)) :
    dbCommitOK (tr ++ B) := by
  intro i tid a lc hi
  rcases Nat.lt_or_ge i tr.length with hlt | hge
  · rw [List.getElem?_append, if_pos hlt] at hi
    obtain ⟨j, hj, cid, hw⟩ := h i tid a lc hi
    refine ⟨j, hj, cid, ?_⟩
    rw [List.getElem?_append, if_pos (lt_trans hj hlt)]
    exact hw
  · rw [List.getElem?_append_right hge] at hi
    obtain ⟨j, hj, cid, hw⟩ := hB (i - tr.length) tid a lc hi
    exact ⟨j, by omega, cid, hw⟩

theorem schedOK_append {tr B : List Ev} (h : schedOK tr)
    (hB : ∀ (k tid cid : Nat) (v prev : Option Time) (pre ro : Bool),
      B[k]? = some (Ev.schedStart tid cid v prev pre ro) →
      (pre = true → isEarlier v prev = true ∧ ro = true) ∧
      (pre = false → isEarlier v prev = false ∧
        ∃ j : Nat, j < tr.length + k ∧ ∃ cid2 : Nat,
          (tr ++ B)[j]? = some (Ev.commitCallDone tid cid2))) :
    schedOK (tr ++ B) := by
  intro i tid cid v prev pre ro hi
  rcases Nat.lt_or_ge i tr.length with hlt | hge
  · rw [List.getElem?_append, if_pos hlt] at hi
    obtain ⟨h1, h2⟩ := h i tid cid v prev pre ro hi
    refine ⟨h1, fun hp => ?_⟩
    obtain ⟨hd, j, hj, cid2, hw⟩ := h2 hp
    refine ⟨hd, j, hj, cid2, ?_⟩
    rw [List.getElem?_append, if_pos (lt_trans hj hlt)]
    exact hw
  · rw [List.getElem?_append_right hge] at hi
    obtain ⟨h1, h2⟩ := hB (i - tr.length) tid cid v prev pre ro hi
    refine ⟨h1, fun hp => ?_⟩
    obtain ⟨hd, j, hj, cid2, hw⟩ := h2 hp
    exact ⟨hd, j, by omega, cid2, hw⟩

theorem commitDirOK_append {tr B : List Ev} (h : commitDirOK tr)
    (hB : ∀ (k tid : Nat) (a : Option Time) (vp : Bool) (v prev : Option Time),
      B[k]? = some (Ev.dbCommit tid a vp (some (v, prev))) → isEarlier v prev = false) :
    commitDirOK (tr ++ B) := by
  intro i tid a vp v prev hi
  rcases Nat.lt_or_ge i tr.length with hlt | hge
  · rw [List.getElem?_append, if_pos hlt] at hi
    exact h i tid a vp v prev hi
  · rw [List.getElem?_append_right hge] at hi
    exact hB (i - tr.length) tid a vp v prev hi

theorem lastDbAlarm_append (tr B : List Ev) :
    lastDbAlarm (tr ++ B) =
      B.foldl (fun acc e => match e with | Ev.dbCommit _ a _ _ => a | _ => acc)
        (lastDbAlarm tr) := by
  unfold lastDbAlarm
  exact List.foldl_append ..

/-- Events that affect none of the trace predicates and not the last
committed alarm value. -/
def neutralEv : Ev → Bool
  | Ev.dbCommit .. => false
  | Ev.schedStart .. => false
  | _ => true

theorem lastFold_neutral {B : List Ev} (hB : ∀ e ∈ B, neutralEv e = true) (acc : Option Time) :
    B.foldl (fun acc e => match e with | Ev.dbCommit _ a _ _ => a | _ => acc) acc = acc := by
  induction B generalizing acc with
  | nil => rfl
  | cons e rest ih =>
    have he := hB e (List.mem_cons_self ..)
    have hrest : ∀ x ∈ rest, neutralEv x = true := fun x hx => hB x (List.mem_cons_of_mem _ hx)
    cases e with
    | dbCommit tid a vp lc => simp [neutralEv] at he
    | schedStart tid cid v prev pre ro => simp only [List.foldl_cons]; exact ih hrest acc
    | schedDone tid cid v => simp only [List.foldl_cons]; exact ih hrest acc
    | commitCallStart tid cid => simp only [List.foldl_cons]; exact ih hrest acc
    | commitCallDone tid cid => simp only [List.foldl_cons]; exact ih hrest acc
    | releasedWaiters ws => simp only [List.foldl_cons]; exact ih hrest acc
    | brokenSet e2 => simp only [List.foldl_cons]; exact ih hrest acc

/-- Invariant transfer when the tasks, committed alarm and trace are
unchanged. -/
theorem inv_congr {s s' : St} (h : Inv s)
    (hpre : s'.preTask.isSome = true → s'.rootOpen = true)
    (hstaged : (s'.pendingAlarm.isSome || s'.pendingWrite) = true → s'.rootOpen = true)
    (htasks : ∀ t ∈ s'.tasks, t ∈ s.tasks)
    (hcomm : s'.committedAlarm = s.committedAlarm)
    (hev : s'.events = s.events) : Inv s' := by
  refine ⟨hpre, hstaged, ?_, ?_, ?_, ?_, ?_⟩
  · intro t ht cid vp v prev hph
    exact h.postDir t (htasks t ht) cid vp v prev hph
  · rw [hcomm, hev]; exact h.commLast
  · rw [hev]; exact h.trDb
  · rw [hev]; exact h.trSched
  · rw [hev]; exact h.trDir

/-- Invariant transfer when the trace only grows by neutral events. -/
theorem inv_append_neutral {s s' : St} (h : Inv s) {B : List Ev}
    (hev : s'.events = s.events ++ B)
    (hB : ∀ e ∈ B, neutralEv e = true)
    (hpre : s'.preTask.isSome = true → s'.rootOpen = true)
    (hstaged : (s'.pendingAlarm.isSome || s'.pendingWrite) = true → s'.rootOpen = true)
    (hpost : postDirOK s'.tasks)
    (hcomm : s'.committedAlarm = s.committedAlarm) : Inv s' := by
  refine ⟨hpre, hstaged, hpost, ?_, ?_, ?_, ?_⟩
  · rw [hcomm, hev, lastDbAlarm_append, lastFold_neutral hB, h.commLast]
  · rw [hev]
    refine dbCommitOK_append h.trDb ?_
    intro k tid a lc hk
    have hmem := List.getElem?_mem hk
    have := hB _ hmem
    simp [neutralEv] at this
  · rw [hev]
    refine schedOK_append h.trSched ?_
    intro k tid cid v prev pre ro hk
    have hmem := List.getElem?_mem hk
    have := hB _ hmem
    simp [neutralEv] at this
  · rw [hev]
    refine commitDirOK_append h.trDir ?_
    intro k tid a vp v prev hk
    have hmem := List.getElem?_mem hk
    have := hB _ hmem
    simp [neutralEv] at this

theorem postDirOK_sub {l l' : List Task} (h : postDirOK l) (hsub : ∀ t ∈ l', t ∈ l) :
    postDirOK l' :=
  fun t ht cid vp v prev hph => h t (hsub t ht) cid vp v prev hph

theorem inv_setAlarmCore (t : Option Time) (s : St) (h : Inv s) : Inv (setAlarmCore t s) := by
  unfold setAlarmCore ensureTask stageAlarm
  split
  · exact h
  · split <;> dsimp only <;> split <;>
      exact inv_congr h (by simp) (by simp) (by simp) (by simp) (by simp)

theorem inv_armAlarmHandler (f : Time) (s : St) (h : Inv s) : Inv (armAlarmHandler f s) := by
  unfold armAlarmHandler
  split
  · exact h
  · split
    · exact inv_congr h (by simpa using h.preRoot) (by simpa using h.stagedRoot)
        (by simp) (by simp) (by simp)
    · exact h

theorem inv_cancelDeferred (s : St) (h : Inv s) : Inv (cancelDeferredAlarmDeletion s) := by
  unfold cancelDeferredAlarmDeletion
  split
  · exact inv_congr h (by simpa using h.preRoot) (by simpa using h.stagedRoot)
      (by simp) (by simp) (by simp)
  · exact h

theorem inv_dropHandler (s : St) (h : Inv s) : Inv (dropHandler s) := by
  unfold dropHandler
  split
  · exact h
  · next hh =>
    have hbase : Inv { s with handler := none } :=
      inv_congr h (by simpa using h.preRoot) (by simpa using h.stagedRoot)
        (by simp) (by simp) (by simp)
    split
    · exact hbase
    · split
      · exact inv_setAlarmCore none _ hbase
      · exact hbase

theorem inv_startTransaction (s : St) (h : Inv s) : Inv (startTransaction s) := by
  unfold startTransaction
  exact inv_congr h (by simpa using h.preRoot) (by simpa using h.stagedRoot)
    (by simp) (by simp) (by simp)

theorem inv_txnSetAlarm (t : Option Time) (s : St) (h : Inv s) : Inv (txnSetAlarm t s) := by
  unfold txnSetAlarm stageAlarm
  split
  · exact h
  · exact inv_congr h (by simp) (by simp) (by simp) (by simp) (by simp)

theorem inv_gateWait (s : St) (h : Inv s) : Inv (gateWait s) := by
  unfold gateWait
  dsimp only
  split
  · refine inv_append_neutral h rfl ?_ (by simpa using h.preRoot) (by simpa using h.stagedRoot)
      (by simpa using h.postDir) (by simp)
    intro e he
    simp only [List.mem_singleton] at he
    subst he
    rfl
  · exact inv_congr h (by simpa using h.preRoot) (by simpa using h.stagedRoot)
      (fun t ht => ht) (by simp) (by simp)

theorem inv_latchFailures (s : St) (h : Inv s) : Inv (latchFailures s) := by
  unfold latchFailures
  split
  · exact h
  · split
    · refine inv_append_neutral h rfl ?_ (by simpa using h.preRoot) (by simpa using h.stagedRoot)
        (by simpa using h.postDir) (by simp)
      intro e he
      simp only [List.mem_singleton] at he
      subst he
      rfl
    · exact inv_congr h (by simpa using h.preRoot) (by simpa using h.stagedRoot)
        (fun t ht => ht) (by simp) (by simp)

theorem inv_reject (cid : Nat) (e : String) (s : St) (h : Inv s) : Inv (reject cid e s) := by
  unfold reject
  dsimp only
  split
  · split
    · exact inv_congr h (by simp) (by simpa using h.stagedRoot) (fun t ht => ht)
        (by simp) (by simp)
    · refine inv_congr h (by simpa using h.preRoot) (by simpa using h.stagedRoot)
        ?_ (by simp) (by simp)
      intro t ht
      simp only [List.mem_filter] at ht
      exact ht.1
  · refine inv_congr h (by simpa using h.preRoot) (by simpa using h.stagedRoot)
      ?_ (by simp) (by simp)
    intro t ht
    simp only [List.mem_filter] at ht
    exact ht.1

theorem inv_commitAndCall (tid : Nat) (vp : Bool) (post : Option (Option Time × Option Time))
    (s : St) (h : Inv s)
    (hvp : vp = true → ∃ j : Nat, ∃ cid2 : Nat,
      s.events[j]? = some (Ev.schedDone tid cid2 (effectiveAlarm s)))
    (hpost : ∀ (v prev : Option Time), post = some (v, prev) → isEarlier v prev = false) :
    Inv (commitAndCall tid vp post s) := by
  unfold commitAndCall issueCall
  dsimp only
  refine ⟨by simp, by simp, ?_, ?_, ?_, ?_, ?_⟩
  · intro t ht cid2 vp2 v prev hph
    rw [List.mem_append] at ht
    rcases ht with ht | ht
    · exact h.postDir t ht cid2 vp2 v prev hph
    · rw [List.mem_singleton] at ht
      subst ht
      injection hph with e1 e2 e3
      exact hpost v prev e3
  · rw [lastDbAlarm_append]
    rfl
  · refine dbCommitOK_append h.trDb ?_
    intro k tid2 a lc hk
    rcases getElem?_list_two hk with ⟨hk0, he⟩ | ⟨hk1, he⟩
    · injection he with e1 e2 e3 e4
      subst e1
      subst e2
      obtain ⟨j, cid2, hw⟩ := hvp e3.symm
      have hj : j < s.events.length := (List.getElem?_eq_some.mp hw).1
      refine ⟨j, by omega, cid2, ?_⟩
      rw [List.getElem?_append, if_pos hj]
      exact hw
    · exact Ev.noConfusion he
  · refine schedOK_append h.trSched ?_
    intro k tid2 cid2 v prev pre ro hk
    rcases getElem?_list_two hk with ⟨_, he⟩ | ⟨_, he⟩
    · exact Ev.noConfusion he
    · exact Ev.noConfusion he
  · refine commitDirOK_append h.trDir ?_
    intro k tid2 a vp2 v prev hk
    rcases getElem?_list_two hk with ⟨_, he⟩ | ⟨_, he⟩
    · injection he with e1 e2 e3 e4
      exact hpost v prev e4.symm
    · exact Ev.noConfusion he

theorem inv_startCycle (tid : Nat) (s : St) (h : Inv s) (hro : s.rootOpen = true) :
    Inv (startCycle tid s) := by
  unfold startCycle
  split
  · next v hp =>
    split
    · next he =>
      unfold issueCall
      dsimp only
      refine ⟨by simp [hro], by simpa using h.stagedRoot, by simpa using h.postDir, ?_, ?_, ?_, ?_⟩
      · rw [lastDbAlarm_append]
        exact h.commLast
      · refine dbCommitOK_append h.trDb ?_
        intro k tid2 a lc hk
        obtain ⟨hk0, hee⟩ := getElem?_list_one hk
        exact Ev.noConfusion hee
      · refine schedOK_append h.trSched ?_
        intro k tid2 cid2 v2 prev2 pre2 ro2 hk
        obtain ⟨hk0, hee⟩ := getElem?_list_one hk
        injection hee with e1 e2 e3 e4 e5 e6
        subst e3
        subst e4
        subst e5
        subst e6
        exact ⟨fun _ => ⟨he, hro⟩, fun hcon => by simp at hcon⟩
      · refine commitDirOK_append h.trDir ?_
        intro k tid2 a vp2 v2 prev2 hk
        obtain ⟨hk0, hee⟩ := getElem?_list_one hk
        exact Ev.noConfusion hee
    · next he =>
      have he2 : isEarlier v s.scheduledAlarm = false := by
        simpa using he
      split
      · exact inv_commitAndCall tid false none s h (by simp) (by simp)
      · refine inv_commitAndCall tid false _ s h (by simp) ?_
        intro v2 prev2 heq2
        injection heq2 with hpair
        injection hpair with e1 e2
        subst e1
        subst e2
        exact he2
  · exact inv_commitAndCall tid false none s h (by simp) (by simp)

theorem inv_completeTask (tid : Nat) (s : St) (h : Inv s) : Inv (completeTask tid s) := by
  unfold completeTask
  dsimp only
  split
  · refine inv_congr h (by simpa using h.preRoot) (by simpa using h.stagedRoot)
      ?_ (by simp) (by simp)
    intro t ht
    simp only [List.mem_filter] at ht
    exact ht.1
  · refine inv_append_neutral h rfl ?_ (by simpa using h.preRoot) (by simpa using h.stagedRoot)
      ?_ (by simp)
    · intro e2 he2
      simp only [List.mem_singleton] at he2
      subst he2
      rfl
    · refine postDirOK_sub h.postDir ?_
      intro t ht
      simp only [List.mem_filter] at ht
      exact ht.1

theorem inv_fulfillSched (tid cid : Nat) (v : Option Time) (s : St) (h : Inv s)
    (hro : s.rootOpen = true) : Inv (fulfillSched tid cid v s) := by
  have h1 : Inv { s with events := s.events ++ [Ev.schedDone tid cid v] } := by
    refine inv_append_neutral h rfl ?_ (by simpa using h.preRoot) (by simpa using h.stagedRoot)
      (by simpa using h.postDir) (by simp)
    intro e he
    simp only [List.mem_singleton] at he
    subst he
    rfl
  unfold fulfillSched
  dsimp only
  by_cases heq : effectiveAlarm s = v
  · rw [if_pos heq]
    refine inv_commitAndCall tid true none _ h1 ?_ (by simp)
    intro _
    refine ⟨s.events.length, cid, ?_⟩
    dsimp only
    have hv : effectiveAlarm { s with events := s.events ++ [Ev.schedDone tid cid v] } = v := heq
    rw [hv]
    exact List.getElem?_concat_length ..
  · rw [if_neg heq]
    by_cases he : isEarlier (effectiveAlarm s) v = true
    · rw [if_pos he]
      unfold issueCall
      dsimp only
      refine ⟨by simp [hro], by simpa using h.stagedRoot, by simpa using h.postDir, ?_, ?_, ?_, ?_⟩
      · rw [lastDbAlarm_append]
        exact h1.commLast
      · refine dbCommitOK_append h1.trDb ?_
        intro k tid2 a lc hk
        obtain ⟨hk0, hee⟩ := getElem?_list_one hk
        exact Ev.noConfusion hee
      · refine schedOK_append h1.trSched ?_
        intro k tid2 cid2 v2 prev2 pre2 ro2 hk
        obtain ⟨hk0, hee⟩ := getElem?_list_one hk
        injection hee with e1 e2 e3 e4 e5 e6
        subst e3
        subst e4
        subst e5
        subst e6
        exact ⟨fun _ => ⟨he, hro⟩, fun hcon => by simp at hcon⟩
      · refine commitDirOK_append h1.trDir ?_
        intro k tid2 a vp2 v2 prev2 hk
        obtain ⟨hk0, hee⟩ := getElem?_list_one hk
        exact Ev.noConfusion hee
    · rw [if_neg he]
      have he2 : isEarlier (effectiveAlarm s) v = false := by
        simpa using he
      refine inv_commitAndCall tid false _ _ h1 (by simp) ?_
      intro v2 prev2 heq2
      injection heq2 with hpair
      injection hpair with e1 e2
      subst e1
      subst e2
      exact he2

theorem inv_fulfillPost (cid : Nat) (s : St) (h : Inv s) : Inv (fulfillPost cid s) := by
  unfold fulfillPost
  split
  · exact h
  · next t hfind =>
    have hmem : t ∈ s.tasks := List.mem_of_find?_eq_some hfind
    split
    · next cid0 vp post heq =>
      dsimp only
      split
      · refine inv_completeTask t.tid _ ?_
        refine inv_append_neutral h rfl ?_ (by simpa using h.preRoot)
          (by simpa using h.stagedRoot) (by simpa using h.postDir) (by simp)
        intro e he
        simp only [List.mem_singleton] at he
        subst he
        rfl
      · next v prev =>
        unfold issueCall
        dsimp only
        have hdir : isEarlier v prev = false :=
          h.postDir t hmem cid0 vp v prev heq
        refine ⟨by simpa using h.preRoot, by simpa using h.stagedRoot, ?_, ?_, ?_, ?_, ?_⟩
        · intro t2 ht2 cid3 vp3 v3 prev3 hph3
          rw [List.mem_map] at ht2
          obtain ⟨x, hx, hfx⟩ := ht2
          by_cases hxe : x.tid = t.tid
          · rw [if_pos hxe] at hfx
            subst hfx
            exact absurd hph3 (by simp)
          · rw [if_neg hxe] at hfx
            subst hfx
            exact h.postDir x hx cid3 vp3 v3 prev3 hph3
        · rw [List.append_assoc, lastDbAlarm_append]
          exact h.commLast
        · rw [List.append_assoc]
          refine dbCommitOK_append h.trDb ?_
          intro k tid2 a lc hk
          rcases getElem?_list_two hk with ⟨_, hee⟩ | ⟨_, hee⟩
          · exact Ev.noConfusion hee
          · exact Ev.noConfusion hee
        · rw [List.append_assoc]
          refine schedOK_append h.trSched ?_
          intro k tid2 cid2 v2 prev2 pre2 ro2 hk
          rcases getElem?_list_two hk with ⟨hk0, hee⟩ | ⟨hk1, hee⟩
          · exact Ev.noConfusion hee
          · injection hee with e1 e2 e3 e4 e5 e6
            subst e1
            subst e3
            subst e4
            subst e5
            refine ⟨fun hcon => by simp at hcon, fun _ => ⟨hdir, ?_⟩⟩
            refine ⟨s.events.length, by omega, cid, ?_⟩
            rw [List.getElem?_append_right (Nat.le_refl _)]
            simp
        · rw [List.append_assoc]
          refine commitDirOK_append h.trDir ?_
          intro k tid2 a vp2 v2 prev2 hk
          rcases getElem?_list_two hk with ⟨_, hee⟩ | ⟨_, hee⟩
          · exact Ev.noConfusion hee
          · exact Ev.noConfusion hee
    · next cid0 v heq =>
      refine inv_completeTask t.tid _ ?_
      refine inv_append_neutral h rfl ?_ (by simpa using h.preRoot)
        (by simpa using h.stagedRoot) (by simpa using h.postDir) (by simp)
      intro e he
      simp only [List.mem_singleton] at he
      subst he
      rfl

theorem inv_fulfill (cid : Nat) (s : St) (h : Inv s) : Inv (fulfill cid s) := by
  unfold fulfill
  dsimp only
  have h0 : Inv { s with calls := s.calls.filter (fun c => c.1 ≠ cid) } :=
    inv_congr h (by simpa using h.preRoot) (by simpa using h.stagedRoot)
      (fun t ht => ht) (by simp) (by simp)
  split
  · next tid cid0 v heq =>
    split
    · refine inv_fulfillSched tid cid v _ ?_ ?_
      · exact inv_congr h0 (by simp) (by simpa using h0.stagedRoot)
          (fun t ht => ht) (by simp) (by simp)
      · exact h.preRoot (by simp [heq])
    · exact inv_fulfillPost cid _ h0
  · exact inv_fulfillPost cid _ h0

theorem inv_poll (s : St) (h : Inv s) : Inv (poll s) := by
  unfold poll
  dsimp only
  have h1 := inv_latchFailures s h
  split
  · exact h1
  · split
    · next tid heq =>
      refine inv_startCycle tid _ h1 ?_
      exact h1.preRoot (by simp [heq])
    · exact h1

theorem inv_putCore (s : St) (h : Inv s) :
    Inv (ensureTask { s with pendingWrite := true, rootOpen := true }) := by
  unfold ensureTask
  dsimp only
  split <;> exact inv_congr h (by simp) (by simp) (fun t ht => ht) (by simp) (by simp)

theorem inv_txnCommit (s : St) (h : Inv s) : Inv (txnCommit s) := by
  unfold txnCommit
  split
  · exact h
  · next d hd =>
    have h1 : Inv { s with txnDepth := d } :=
      inv_congr h (by simpa using h.preRoot) (by simpa using h.stagedRoot)
        (fun t ht => ht) (by simp) (by simp)
    dsimp only
    by_cases hd0 : d = 0
    · rw [if_pos hd0]
      by_cases hst : (s.pendingAlarm.isSome || s.pendingWrite) = true
      · rw [if_pos hst]
        cases hp : s.preTask with
        | some x =>
          simp only [hp]
          have hro : s.rootOpen = true := h.preRoot (by simp [hp])
          exact inv_congr h (by simp [hro]) (by simpa using h.stagedRoot)
            (fun t ht => ht) (by simp) (by simp)
        | none =>
          simp only [hp]
          have hro : s.rootOpen = true := h.stagedRoot hst
          refine inv_startCycle _ _ ?_ (by exact hro)
          exact inv_congr h1 (by simp [hro]) (by simpa using h.stagedRoot)
            (fun t ht => ht) (by simp) (by simp)
      · rw [if_neg hst]
        exact h1
    · rw [if_neg hd0]
      exact h1

theorem inv_step (s : St) (a : Act) (h : Inv s) : Inv (step s a) := by
  cases a with
  | setAlarmA t =>
    simp only [step, setAlarm]
    cases hb : s.broken with
    | some e => simpa using h
    | none => simpa [hb] using inv_setAlarmCore t s h
  | putA =>
    simp only [step, put]
    cases hb : s.broken with
    | some e => simpa using h
    | none => simpa [hb] using inv_putCore s h
  | pollA => exact inv_poll s h
  | fulfillA cid => exact inv_fulfill cid s h
  | rejectA cid e => exact inv_reject cid e s h
  | gateWaitA => exact inv_gateWait s h
  | armA f => exact inv_armAlarmHandler f s h
  | dropHandlerA => exact inv_dropHandler s h
  | cancelA => exact inv_cancelDeferred s h
  | startTxnA => exact inv_startTransaction s h
  | txnSetAlarmA t => exact inv_txnSetAlarm t s h
  | txnCommitA => exact inv_txnCommit s h

theorem inv_init : Inv init := by
  refine ⟨by simp [init], by simp [init], ?_, rfl, ?_, ?_, ?_⟩
  · intro t ht
    simp [init] at ht
  · intro i tid a lc hi
    simp [init] at hi
  · intro i tid cid v prev pre ro hi
    simp [init] at hi
  · intro i tid a vp v prev hi
    simp [init] at hi

theorem inv_run (acts : List Act) : Inv (run acts) := by
  unfold run
  suffices hgen : ∀ s, Inv s → Inv (acts.foldl step s) from hgen init inv_init
  induction acts with
  | nil => exact fun s hs => hs
  | cons a rest ih => exact fun s hs => ih (step s a) (inv_step s a hs)


/-- Claim C1: for every commit that changes the alarm time, when the new time
is earlier than the previously scheduled time (including when nothing was
scheduled) the `scheduleRun` call for the new time completes before the local
database commit that makes it durable; conversely, when the new time is later
than the previously scheduled time or is `none`, the local database commit
completes before the `scheduleRun` call is issued.  Formally, over every run:
a schedule-first local commit is preceded by the completion of a
`scheduleRun` for exactly the committed value; pre-commit `scheduleRun` calls
happen only for earlier-direction changes; post-commit `scheduleRun` calls
happen only for later-or-none-direction changes and only after the task's
durability callback completed; and commit-first alarm changes are exactly the
later-or-none-direction ones. -/
theorem claim_C1 (acts : List Act) :
    (∀ (i tid : Nat) (a : Option Time) (lc : Option (Option Time × Option Time)),
      (run acts).events[i]? = some (Ev.dbCommit tid a true lc) →
      ∃ j : Nat, j < i ∧ ∃ cid : Nat,
        (run acts).events[j]? = some (Ev.schedDone tid cid a)) ∧
    (∀ (i tid cid : Nat) (v prev : Option Time) (ro : Bool),
      (run acts).events[i]? = some (Ev.schedStart tid cid v prev true ro) →
      isEarlier v prev = true) ∧
    (∀ (i tid cid : Nat) (v prev : Option Time) (ro : Bool),
      (run acts).events[i]? = some (Ev.schedStart tid cid v prev false ro) →
      isEarlier v prev = false ∧
      ∃ j : Nat, j < i ∧ ∃ cid2 : Nat,
        (run acts).events[j]? = some (Ev.commitCallDone tid cid2)) ∧
    (∀ (i tid : Nat) (a : Option Time) (vp : Bool) (v prev : Option Time),
      (run acts).events[i]? = some (Ev.dbCommit tid a vp (some (v, prev))) →
      isEarlier v prev = false) := by
  have h := inv_run acts
  refine ⟨h.trDb, ?_, ?_, h.trDir⟩
  · intro i tid cid v prev ro hi
    exact ((h.trSched i tid cid v prev true ro hi).1 rfl).1
  · intro i tid cid v prev ro hi
    exact (h.trSched i tid cid v prev false ro hi).2 rfl

/-- Witness for C1 on the concrete earlier-then-later scenario of the test
suite: the earlier change to 1ms is committed at trace position 7 after its
`scheduleRun` completed, and the later change to 3ms issues its `scheduleRun`
at position 13 only after its commit callback completed. -/
theorem claim_C1_witness :
    ((run [Act.setAlarmA (some 2), Act.pollA, Act.fulfillA 1, Act.fulfillA 2,
      Act.setAlarmA (some 1), Act.pollA, Act.fulfillA 3, Act.fulfillA 4,
      Act.setAlarmA (some 3), Act.pollA, Act.fulfillA 5, Act.fulfillA 6]).events[7]? =
        some (Ev.dbCommit 2 (some 1) true none) ∧
      ∃ j : Nat, j < 7 ∧ ∃ cid : Nat,
        (run [Act.setAlarmA (some 2), Act.pollA, Act.fulfillA 1, Act.fulfillA 2,
          Act.setAlarmA (some 1), Act.pollA, Act.fulfillA 3, Act.fulfillA 4,
          Act.setAlarmA (some 3), Act.pollA, Act.fulfillA 5, Act.fulfillA 6]).events[j]? =
          some (Ev.schedDone 2 cid (some 1))) ∧
    (isEarlier (some 3) (some 1) = false ∧
      ∃ j : Nat, j < 13 ∧ ∃ cid2 : Nat,
        (run [Act.setAlarmA (some 2), Act.pollA, Act.fulfillA 1, Act.fulfillA 2,
          Act.setAlarmA (some 1), Act.pollA, Act.fulfillA 3, Act.fulfillA 4,
          Act.setAlarmA (some 3), Act.pollA, Act.fulfillA 5, Act.fulfillA 6]).events[j]? =
          some (Ev.commitCallDone 3 cid2)) := by
  refine ⟨⟨by decide, (claim_C1 _).1 7 2 (some 1) none (by decide)⟩, ?_⟩
  exact (claim_C1 [Act.setAlarmA (some 2), Act.pollA, Act.fulfillA 1, Act.fulfillA 2,
    Act.setAlarmA (some 1), Act.pollA, Act.fulfillA 3, Act.fulfillA 4,
    Act.setAlarmA (some 3), Act.pollA, Act.fulfillA 5, Act.fulfillA 6]).2.2.1
    13 3 6 (some 3) (some 1) false (by decide)

/-- Counterexample to claim C2 as stated: on the coalescing scenario of the
test "multiple set-earlier in-flight alarms wait for earliest before
committing db" (committed alarm 5ms, then four overlapping earlier updates to
4ms, 3ms, 2ms and 1ms), the coordinator issues exactly three scheduler calls
(4ms, 2ms, 1ms) after the initialization prefix, not two. -/
theorem claim_C2_counterexample :
    countSched ((run coalesceScript).callLog.drop 2) = 3 ∧
    ¬ countSched ((run coalesceScript).callLog.drop 2) = 2 := by
  exact ⟨by decide, by decide⟩

/-- Claim C2 (amended): on the four overlapping earlier-alarm updates of the
coalescing scenario, the in-flight `scheduleRun` finishes with its stale
value, each follow-up `scheduleRun` is issued with the then-latest value, and
only then does one database commit covering all staged changes occur: the
four updates yield exactly three scheduler calls (4ms, 2ms, 1ms) and one
commit, and the gate waiters registered at the four intermediate `set_alarm`
calls are all released together, in a single release, when that single commit
completes. -/
theorem claim_C2_amended :
    (run coalesceScript).callLog =
      [ExtCall.scheduleRun (some 5), ExtCall.commitCallback,
       ExtCall.scheduleRun (some 4), ExtCall.scheduleRun (some 2),
       ExtCall.scheduleRun (some 1), ExtCall.commitCallback] ∧
    countSched ((run coalesceScript).callLog.drop 2) = 3 ∧
    countCommit ((run coalesceScript).callLog.drop 2) = 1 ∧
    ((run coalesceScript.dropLast).waiters.map (fun w => w.wid)) = [2, 3, 4, 5] ∧
    (run coalesceScript).events.getLast? = some (Ev.releasedWaiters [2, 3, 4, 5]) ∧
    (run coalesceScript).waiters = [] ∧
    getAlarm (run coalesceScript) = Except.ok (some 1) := by
  refine ⟨by decide, by decide, by decide, by decide, by decide, by decide, rfl⟩

/-- Claim C3: at every reachable point where the gate is not broken,
`get_alarm()` returns the staged pending alarm value if one exists, otherwise
the alarm value made durable by the last local commit (`none` if the alarm
was never set), except that it returns `none` while an alarm-handler token is
armed. -/
theorem claim_C3 (acts : List Act) (hb : (run acts).broken = none) :
    getAlarm (run acts) =
      Except.ok (if (run acts).handler.isSome then none
        else (run acts).pendingAlarm.getD (lastDbAlarm (run acts).events)) := by
  have h := inv_run acts
  have heff : effectiveAlarm (run acts) =
      (run acts).pendingAlarm.getD (lastDbAlarm (run acts).events) := by
    unfold effectiveAlarm
    rw [h.commLast]
  unfold getAlarm
  rw [hb]
  dsimp only
  rw [heff]

/-- Witness for C3: in the armed-handler scenario of the test "getAlarm()
returns null during handler", the gate is intact and `get_alarm()` returns
`none` even though the last commit durably stored 1ms. -/
theorem claim_C3_witness :
    (run [Act.setAlarmA (some 1), Act.pollA, Act.fulfillA 1, Act.fulfillA 2,
      Act.armA 1]).broken = none ∧
    getAlarm (run [Act.setAlarmA (some 1), Act.pollA, Act.fulfillA 1, Act.fulfillA 2,
      Act.armA 1]) =
      Except.ok (if (run [Act.setAlarmA (some 1), Act.pollA, Act.fulfillA 1, Act.fulfillA 2,
        Act.armA 1]).handler.isSome then none
        else (run [Act.setAlarmA (some 1), Act.pollA, Act.fulfillA 1, Act.fulfillA 2,
          Act.armA 1]).pendingAlarm.getD
          (lastDbAlarm (run [Act.setAlarmA (some 1), Act.pollA, Act.fulfillA 1,
            Act.fulfillA 2, Act.armA 1]).events)) := by
  exact ⟨by decide, claim_C3 _ (by decide)⟩

/-- Claim C5: the earlier-direction `scheduleRun` is issued inside the
still-open local transaction: every pre-commit `scheduleRun` event records
that the root savepoint `_cf_savepoint_0` was open at issuance (the commit
that releases it comes later, per C1); and committing a nested explicit
transaction performs no observable work at all — it only pops the savepoint
level, issuing no scheduler call and no commit; only the outermost commit
engages the commit machinery. -/
theorem claim_C5 :
    (∀ (acts : List Act) (i tid cid : Nat) (v prev : Option Time) (ro : Bool),
      (run acts).events[i]? = some (Ev.schedStart tid cid v prev true ro) →
      ro = true) ∧
    (∀ s : St, 2 ≤ s.txnDepth →
      txnCommit s = { s with txnDepth := s.txnDepth - 1 }) := by
  constructor
  · intro acts i tid cid v prev ro hi
    exact (((inv_run acts).trSched i tid cid v prev true ro hi).1 rfl).2
  · intro s hd
    unfold txnCommit
    cases hdep : s.txnDepth with
    | zero => rw [hdep] at hd; exact absurd hd (by simp)
    | succ d =>
      dsimp only
      have hd0 : d ≠ 0 := by
        rw [hdep] at hd
        omega
      rw [if_neg hd0]
      simp

/-- Witness for C5: the pre-commit `scheduleRun` of the earlier-alarm test
records the open root savepoint, and a nested commit inside two explicit
transactions only pops the savepoint level. -/
theorem claim_C5_witness :
    ((run [Act.setAlarmA (some 2), Act.pollA, Act.fulfillA 1, Act.fulfillA 2,
      Act.setAlarmA (some 1), Act.pollA]).events[5]? =
      some (Ev.schedStart 2 3 (some 1) (some 2) true true) ∧ (true : Bool) = true) ∧
    (2 ≤ (run [Act.startTxnA, Act.startTxnA, Act.txnSetAlarmA (some 1)]).txnDepth ∧
      txnCommit (run [Act.startTxnA, Act.startTxnA, Act.txnSetAlarmA (some 1)]) =
        { run [Act.startTxnA, Act.startTxnA, Act.txnSetAlarmA (some 1)] with
          txnDepth := (run [Act.startTxnA, Act.startTxnA, Act.txnSetAlarmA (some 1)]).txnDepth - 1 }) := by
  refine ⟨⟨by decide, ?_⟩, ⟨by decide, ?_⟩⟩
  · exact claim_C5.1 [Act.setAlarmA (some 2), Act.pollA, Act.fulfillA 1, Act.fulfillA 2,
      Act.setAlarmA (some 1), Act.pollA] 5 2 3 (some 1) (some 2) true (by decide)
  · exact claim_C5.2 _ (by decide)

/-- Claim C7: calling `set_alarm` with a value equal to the current effective
alarm value (pending if staged, else committed) is a pure no-op — the state
is unchanged, so no scheduler call and no commit can result; consequently
`set_alarm(x); set_alarm(x)` is the same as a single `set_alarm(x)`, issuing
at most one scheduler call and at most one commit. -/
theorem claim_C7 :
    (∀ (s : St) (x : Option Time), s.broken = none → effectiveAlarm s = x →
      step s (Act.setAlarmA x) = s) ∧
    (∀ (s : St) (x : Option Time),
      step (step s (Act.setAlarmA x)) (Act.setAlarmA x) = step s (Act.setAlarmA x)) := by
  have hnoop : ∀ (s : St) (x : Option Time), s.broken = none → effectiveAlarm s = x →
      step s (Act.setAlarmA x) = s := by
    intro s x hb he
    simp only [step, setAlarm]
    rw [hb]
    dsimp only
    unfold setAlarmCore
    rw [if_pos he.symm]
  refine ⟨hnoop, ?_⟩
  intro s x
  cases hb : s.broken with
  | some e =>
    have h1 : step s (Act.setAlarmA x) = s := by
      simp only [step, setAlarm]
      rw [hb]
    rw [h1, h1]
  | none =>
    by_cases he : x = effectiveAlarm s
    · have h1 : step s (Act.setAlarmA x) = s := hnoop s x hb he.symm
      rw [h1, h1]
    · have h1 : step s (Act.setAlarmA x) = setAlarmCore x s := by
        simp only [step, setAlarm]
        rw [hb]
      have h2 : setAlarmCore x s = ensureTask (stageAlarm x
          (match s.handler with
            | some hh => { s with handler := some { hh with dirty := true, deferredDelete := false } }
            | none => s)) := by
        unfold setAlarmCore
        rw [if_neg he]
      have hbroken2 : (setAlarmCore x s).broken = none := by
        rw [h2]
        unfold ensureTask stageAlarm
        cases hh : s.handler <;> dsimp only <;> split <;> simp [hb]
      have heff2 : effectiveAlarm (setAlarmCore x s) = x := by
        rw [h2]
        unfold ensureTask stageAlarm effectiveAlarm
        cases hh : s.handler <;> dsimp only <;> split <;> rfl
      rw [h1]
      exact hnoop (setAlarmCore x s) x hbroken2 heff2

/-- Witness for C7: after committing alarm 1ms, a duplicate `set_alarm(1ms)`
leaves the state untouched. -/
theorem claim_C7_witness :
    (run [Act.setAlarmA (some 1), Act.pollA, Act.fulfillA 1, Act.fulfillA 2]).broken = none ∧
    effectiveAlarm (run [Act.setAlarmA (some 1), Act.pollA, Act.fulfillA 1, Act.fulfillA 2]) =
      some 1 ∧
    step (run [Act.setAlarmA (some 1), Act.pollA, Act.fulfillA 1, Act.fulfillA 2])
      (Act.setAlarmA (some 1)) =
      run [Act.setAlarmA (some 1), Act.pollA, Act.fulfillA 1, Act.fulfillA 2] := by
  exact ⟨by decide, by decide, claim_C7.1 _ (some 1) (by decide) (by decide)⟩


theorem broken_setAlarmCore (t : Option Time) (s : St) :
    (setAlarmCore t s).broken = s.broken := by
  unfold setAlarmCore ensureTask stageAlarm
  split
  · rfl
  · split <;> dsimp only <;> split <;> rfl

theorem broken_commitAndCall (tid : Nat) (vp : Bool) (post : Option (Option Time × Option Time))
    (s : St) : (commitAndCall tid vp post s).broken = s.broken := rfl

theorem broken_startCycle (tid : Nat) (s : St) : (startCycle tid s).broken = s.broken := by
  unfold startCycle
  split
  · split
    · rfl
    · rfl
  · rfl

theorem broken_completeTask (tid : Nat) (s : St) : (completeTask tid s).broken = s.broken := by
  unfold completeTask
  dsimp only

theorem broken_fulfillSched (tid cid : Nat) (v : Option Time) (s : St) :
    (fulfillSched tid cid v s).broken = s.broken := by
  unfold fulfillSched
  dsimp only
  split
  · rfl
  · split
    · rfl
    · rfl

theorem broken_fulfillPost (cid : Nat) (s : St) : (fulfillPost cid s).broken = s.broken := by
  unfold fulfillPost
  split
  · rfl
  · next t hfind =>
    split
    · dsimp only
      split
      · rw [broken_completeTask]
      · rfl
    · rw [broken_completeTask]

theorem broken_fulfill (cid : Nat) (s : St) : (fulfill cid s).broken = s.broken := by
  unfold fulfill
  dsimp only
  split
  · split
    · rw [broken_fulfillSched]
    · rw [broken_fulfillPost]
  · rw [broken_fulfillPost]

theorem broken_reject (cid : Nat) (e : String) (s : St) :
    (reject cid e s).broken = s.broken := by
  unfold reject
  dsimp only
  split
  · split <;> rfl
  · rfl

theorem broken_latch_some (s : St) (e : String) (hb : s.broken = some e) :
    (latchFailures s).broken = some e := by
  cases hq : s.failureQueue with
  | nil => simp only [latchFailures, hq]; exact hb
  | cons e2 rest => simp only [latchFailures, hq, hb]

theorem broken_poll_some (s : St) (e : String) (hb : s.broken = some e) :
    (poll s).broken = some e := by
  unfold poll
  dsimp only
  have h1 := broken_latch_some s e hb
  rw [if_pos (show (latchFailures s).broken.isSome = true by rw [h1]; rfl)]
  exact h1

theorem broken_gateWait (s : St) : (gateWait s).broken = s.broken := by
  unfold gateWait
  dsimp only
  split <;> rfl

theorem broken_armAlarmHandler (f : Time) (s : St) :
    (armAlarmHandler f s).broken = s.broken := by
  unfold armAlarmHandler
  split
  · rfl
  · split <;> rfl

theorem broken_dropHandler (s : St) : (dropHandler s).broken = s.broken := by
  unfold dropHandler
  split
  · rfl
  · split
    · rfl
    · split
      · rw [broken_setAlarmCore]
      · rfl

theorem broken_cancelDeferred (s : St) :
    (cancelDeferredAlarmDeletion s).broken = s.broken := by
  unfold cancelDeferredAlarmDeletion
  split <;> rfl

theorem broken_txnSetAlarm (t : Option Time) (s : St) :
    (txnSetAlarm t s).broken = s.broken := by
  unfold txnSetAlarm stageAlarm
  split <;> rfl

theorem broken_txnCommit (s : St) : (txnCommit s).broken = s.broken := by
  unfold txnCommit
  split
  · rfl
  · next d hd =>
    dsimp only
    by_cases hd0 : d = 0
    · rw [if_pos hd0]
      by_cases hst : (s.pendingAlarm.isSome || s.pendingWrite) = true
      · rw [if_pos hst]
        cases hp : s.preTask with
        | some x => simp only [hp]
        | none => simp only [hp]; rw [broken_startCycle]
      · rw [if_neg hst]
    · rw [if_neg hd0]

/-- Claim C6: a rejected `scheduleRun` (or rejected commit) poisons the gate
with that error and, for a rejected pre-commit `scheduleRun`, the local
commit is never attempted; once broken, the state stays broken with the
original error across every further step (first failure latched), and every
`get_alarm`/`set_alarm`/`put` on a broken coordinator fails with exactly that
error; detection is asynchronous — after the rejection but before the
failure-handling task runs at the next poll, a `get_alarm` still succeeds. -/
theorem claim_C6 :
    (∀ (s : St) (a : Act) (e : String), s.broken = some e → (step s a).broken = some e) ∧
    (∀ (s : St) (e : String) (t : Option Time), s.broken = some e →
      getAlarm s = Except.error e ∧ setAlarm t s = Except.error e ∧
      put s = Except.error e) ∧
    ((run [Act.setAlarmA (some 1), Act.pollA,
        Act.rejectA 1 "a_rejected_scheduleRun", Act.pollA]).broken =
        some "a_rejected_scheduleRun" ∧
      (run [Act.setAlarmA (some 1), Act.pollA,
        Act.rejectA 1 "a_rejected_scheduleRun", Act.pollA]).callLog =
        [ExtCall.scheduleRun (some 1)] ∧
      getAlarm (run [Act.setAlarmA (some 1), Act.pollA,
        Act.rejectA 1 "a_rejected_scheduleRun", Act.pollA]) =
        Except.error "a_rejected_scheduleRun" ∧
      setAlarm none (run [Act.setAlarmA (some 1), Act.pollA,
        Act.rejectA 1 "a_rejected_scheduleRun", Act.pollA]) =
        Except.error "a_rejected_scheduleRun") ∧
    ((run [Act.putA, Act.pollA, Act.rejectA 1 "a_rejected_commit"]).broken = none ∧
      getAlarm (run [Act.putA, Act.pollA, Act.rejectA 1 "a_rejected_commit"]) =
        Except.ok none ∧
      (run [Act.putA, Act.pollA, Act.rejectA 1 "a_rejected_commit",
        Act.pollA]).broken = some "a_rejected_commit") ∧
    (run [Act.setAlarmA (some 1), Act.pollA, Act.fulfillA 1, Act.fulfillA 2,
      Act.setAlarmA (some 2), Act.pollA, Act.setAlarmA (some 3), Act.pollA,
      Act.rejectA 3 "err_one", Act.rejectA 4 "err_two", Act.pollA]).broken =
      some "err_one" := by
  refine ⟨?_, ?_, ⟨by decide, by decide, ?_, ?_⟩, ⟨by decide, rfl, by decide⟩, by decide⟩
  · intro s a e hb
    cases a with
    | setAlarmA t => simp only [step, setAlarm, hb]
    | putA => simp only [step, put, hb]
    | pollA => exact broken_poll_some s e hb
    | fulfillA cid => rw [show step s (Act.fulfillA cid) = fulfill cid s from rfl,
        broken_fulfill]; exact hb
    | rejectA cid e2 => rw [show step s (Act.rejectA cid e2) = reject cid e2 s from rfl,
        broken_reject]; exact hb
    | gateWaitA => rw [show step s Act.gateWaitA = gateWait s from rfl,
        broken_gateWait]; exact hb
    | armA f => rw [show step s (Act.armA f) = armAlarmHandler f s from rfl,
        broken_armAlarmHandler]; exact hb
    | dropHandlerA => rw [show step s Act.dropHandlerA = dropHandler s from rfl,
        broken_dropHandler]; exact hb
    | cancelA => rw [show step s Act.cancelA = cancelDeferredAlarmDeletion s from rfl,
        broken_cancelDeferred]; exact hb
    | startTxnA => exact hb
    | txnSetAlarmA t => rw [show step s (Act.txnSetAlarmA t) = txnSetAlarm t s from rfl,
        broken_txnSetAlarm]; exact hb
    | txnCommitA => rw [show step s Act.txnCommitA = txnCommit s from rfl,
        broken_txnCommit]; exact hb
  · intro s e t hb
    unfold getAlarm setAlarm put
    rw [hb]
    exact ⟨rfl, rfl, rfl⟩
  · rfl
  · rfl

/-- Witness for C6: latching holds concretely — stepping the broken state of
the rejected-`scheduleRun` scenario with a further poll keeps the original
error, and `get_alarm` on it fails with exactly that error. -/
theorem claim_C6_witness :
    (run [Act.setAlarmA (some 1), Act.pollA,
      Act.rejectA 1 "a_rejected_scheduleRun", Act.pollA]).broken =
      some "a_rejected_scheduleRun" ∧
    (step (run [Act.setAlarmA (some 1), Act.pollA,
      Act.rejectA 1 "a_rejected_scheduleRun", Act.pollA]) Act.pollA).broken =
      some "a_rejected_scheduleRun" ∧
    getAlarm (run [Act.setAlarmA (some 1), Act.pollA,
      Act.rejectA 1 "a_rejected_scheduleRun", Act.pollA]) =
      Except.error "a_rejected_scheduleRun" := by
  refine ⟨by decide, ?_, ?_⟩
  · exact claim_C6.1 _ Act.pollA "a_rejected_scheduleRun" (by decide)
  · exact (claim_C6.2.1 _ "a_rejected_scheduleRun" none (by decide)).1

/-- Claim C4: behavior of an armed alarm-handler token on drop.  With no
writes made while armed (deferred deletion still on), dropping stages
`set_alarm(none)` through the standard commit coupling — concretely one
commit followed by one `scheduleRun(none)` and a final `get_alarm()` of
`none`.  When `set_alarm` was called while armed (the handler marked dirty),
dropping adds nothing — the staged value commits on its own, leaving the
alarm at the most recently staged value.  Calling
`cancel_deferred_alarm_deletion` within the handler clears the
deferred-deletion flag so that dropping leaves the previous alarm intact with
no commit and no scheduler call. -/
theorem claim_C4 :
    (∀ (s : St) (hh : ArmedH), s.handler = some hh → hh.dirty = false →
      hh.deferredDelete = true →
      dropHandler s = setAlarmCore none { s with handler := none }) ∧
    (∀ (s : St) (hh : ArmedH), s.handler = some hh → hh.dirty = false →
      hh.deferredDelete = false → dropHandler s = { s with handler := none }) ∧
    (∀ (s : St) (hh : ArmedH), s.handler = some hh → hh.dirty = true →
      dropHandler s = { s with handler := none }) ∧
    (∀ (s : St) (hh : ArmedH), s.handler = some hh →
      cancelDeferredAlarmDeletion s =
        { s with handler := some { hh with deferredDelete := false } }) ∧
    ((run [Act.setAlarmA (some 1), Act.pollA, Act.fulfillA 1, Act.fulfillA 2,
        Act.armA 1, Act.dropHandlerA, Act.pollA, Act.fulfillA 3, Act.fulfillA 4]).callLog =
        [ExtCall.scheduleRun (some 1), ExtCall.commitCallback,
         ExtCall.commitCallback, ExtCall.scheduleRun none] ∧
      getAlarm (run [Act.setAlarmA (some 1), Act.pollA, Act.fulfillA 1, Act.fulfillA 2,
        Act.armA 1, Act.dropHandlerA, Act.pollA, Act.fulfillA 3, Act.fulfillA 4]) =
        Except.ok none) ∧
    ((run [Act.setAlarmA (some 1), Act.pollA, Act.fulfillA 1, Act.fulfillA 2,
        Act.armA 1, Act.setAlarmA (some 2), Act.dropHandlerA, Act.pollA,
        Act.fulfillA 3, Act.fulfillA 4]).callLog =
        [ExtCall.scheduleRun (some 1), ExtCall.commitCallback,
         ExtCall.commitCallback, ExtCall.scheduleRun (some 2)] ∧
      getAlarm (run [Act.setAlarmA (some 1), Act.pollA, Act.fulfillA 1, Act.fulfillA 2,
        Act.armA 1, Act.setAlarmA (some 2), Act.dropHandlerA, Act.pollA,
        Act.fulfillA 3, Act.fulfillA 4]) = Except.ok (some 2)) ∧
    ((run [Act.setAlarmA (some 1), Act.pollA, Act.fulfillA 1, Act.fulfillA 2,
        Act.armA 1, Act.cancelA, Act.dropHandlerA, Act.pollA]).callLog =
        [ExtCall.scheduleRun (some 1), ExtCall.commitCallback] ∧
      getAlarm (run [Act.setAlarmA (some 1), Act.pollA, Act.fulfillA 1, Act.fulfillA 2,
        Act.armA 1, Act.cancelA, Act.dropHandlerA, Act.pollA]) = Except.ok (some 1)) := by
  refine ⟨?_, ?_, ?_, ?_, ⟨by decide, rfl⟩, ⟨by decide, rfl⟩, ⟨by decide, rfl⟩⟩
  · intro s hh hs hd hdd
    unfold dropHandler
    rw [hs]
    dsimp only
    rw [hd, hdd]
    simp
  · intro s hh hs hd hdd
    unfold dropHandler
    rw [hs]
    dsimp only
    rw [hd, hdd]
    simp
  · intro s hh hs hd
    unfold dropHandler
    rw [hs]
    dsimp only
    rw [hd]
    simp
  · intro s hh hs
    unfold cancelDeferredAlarmDeletion
    rw [hs]

/-- Witness for C4: in the cancel-deferred-deletion scenario the handler is
armed clean with deferred deletion off after the cancel, and dropping the
token leaves the state unchanged except for disarming the handler. -/
theorem claim_C4_witness :
    (run [Act.setAlarmA (some 1), Act.pollA, Act.fulfillA 1, Act.fulfillA 2,
      Act.armA 1, Act.cancelA]).handler =
      some { fireTime := 1, deferredDelete := false, dirty := false } ∧
    dropHandler (run [Act.setAlarmA (some 1), Act.pollA, Act.fulfillA 1, Act.fulfillA 2,
      Act.armA 1, Act.cancelA]) =
      { run [Act.setAlarmA (some 1), Act.pollA, Act.fulfillA 1, Act.fulfillA 2,
        Act.armA 1, Act.cancelA] with handler := none } := by
  refine ⟨by decide, ?_⟩
  exact claim_C4.2.1 _ { fireTime := 1, deferredDelete := false, dirty := false }
    (by decide) (by decide) (by decide)

end ActorSqlite

namespace Tracing

theorem seqReach_trans {x y z : Nat × List StreamEvent}
    (h1 : SeqReach x y) (h2 : SeqReach y z) : SeqReach x z := by
  induction h2 with
  | refl => exact h1
  | emitStep c l a b p h ih => exact SeqReach.emitStep _ c l a b p ih

theorem seqPairOK_emit {c : Nat} {l : List StreamEvent} (h : SeqPairOK (c, l))
    (a b : Nat) (p : Payload) :
    SeqPairOK ((c + 1) % u32Mod, l ++ [⟨a, b, c, p⟩]) := by
  obtain ⟨h1, h2⟩ := h
  dsimp only at h1 h2
  constructor
  · dsimp only
    simp only [List.length_append, List.length_singleton]
    rw [h1, Nat.mod_add_mod]
  · dsimp only
    simp only [List.map_append, List.length_append, List.length_singleton, List.map_singleton]
    rw [h2, List.range_succ, List.map_append, List.map_singleton, h1]

theorem seqReach_pairOK {x y : Nat × List StreamEvent}
    (h : SeqReach x y) (hx : SeqPairOK x) : SeqPairOK y := by
  induction h with
  | refl => exact hx
  | emitStep c l a b p h ih => exact seqPairOK_emit ih a b p

theorem seqReach_emit (a b : Nat) (p : Payload) (s : TSt) :
    SeqReach (seqPart s) (seqPart (emit a b p s)) :=
  SeqReach.emitStep _ s.seqCounter s.emitted a b p (SeqReach.refl _)

mutual

theorem seqReach_closeSpan (o : SpanOutcome) (t : SpanT) (s : TSt) :
    SeqReach (seqPart s) (seqPart (closeSpan o t s).2) :=
  match t with
  | SpanT.mk i par true cs => by
    have ih := seqReach_closeSpanList o cs s
    rcases hcl : closeSpanList o cs s with ⟨cs2, s2⟩
    rw [hcl] at ih
    simp only [closeSpan, hcl]
    exact seqReach_trans ih (seqReach_emit i par (Payload.spanClose o) s2)
  | SpanT.mk i par false cs => by
    simp only [closeSpan]
    exact SeqReach.refl _

theorem seqReach_closeSpanList (o : SpanOutcome) (ts : List SpanT) (s : TSt) :
    SeqReach (seqPart s) (seqPart (closeSpanList o ts s).2) :=
  match ts with
  | [] => by
    simp only [closeSpanList]
    exact SeqReach.refl _
  | t :: rest => by
    have ih1 := seqReach_closeSpan o t s
    rcases hc : closeSpan o t s with ⟨t2, s2⟩
    rw [hc] at ih1
    have ih2 := seqReach_closeSpanList o rest s2
    rcases hcl : closeSpanList o rest s2 with ⟨rest2, s3⟩
    rw [hcl] at ih2
    simp only [closeSpanList, hc, hcl]
    exact seqReach_trans ih1 ih2

end

theorem seqReach_opNth (g : SpanT → TSt → SpanT × TSt)
    (hg : ∀ (t : SpanT) (s : TSt), SeqReach (seqPart s) (seqPart (g t s).2)) :
    ∀ (i : Nat) (ts : List SpanT) (s : TSt),
      SeqReach (seqPart s) (seqPart (opNth g i ts s).2)
  | _, [], s => by
    simp only [opNth]
    exact SeqReach.refl _
  | 0, t :: ts, s => by
    have h1 := hg t s
    rcases hgt : g t s with ⟨t2, s2⟩
    rw [hgt] at h1
    simp only [opNth, hgt]
    exact h1
  | Nat.succ n, t :: ts, s => by
    have h1 := seqReach_opNth g hg n ts s
    rcases hn : opNth g n ts s with ⟨ts2, s2⟩
    rw [hn] at h1
    simp only [opNth, hn]
    exact h1

theorem seqReach_opAtPath (g : SpanT → TSt → SpanT × TSt)
    (hg : ∀ (t : SpanT) (s : TSt), SeqReach (seqPart s) (seqPart (g t s).2)) :
    ∀ (p : List Nat) (t : SpanT) (s : TSt),
      SeqReach (seqPart s) (seqPart (opAtPath g p t s).2)
  | [], t, s => hg t s
  | i :: rest, SpanT.mk id par op cs, s => by
    have h1 := seqReach_opNth (opAtPath g rest)
      (fun t2 s2 => seqReach_opAtPath g hg rest t2 s2) i cs s
    rcases hn : opNth (opAtPath g rest) i cs s with ⟨cs2, s2⟩
    rw [hn] at h1
    simp only [opAtPath, hn]
    exact h1

theorem seqReach_opAtRoot (g : SpanT → TSt → SpanT × TSt)
    (hg : ∀ (t : SpanT) (s : TSt), SeqReach (seqPart s) (seqPart (g t s).2))
    (p : List Nat) (s : TSt) :
    SeqReach (seqPart s) (seqPart (opAtRoot g p s)) := by
  cases p with
  | nil =>
    simp only [opAtRoot]
    exact SeqReach.refl _
  | cons i rest =>
    have h1 := seqReach_opNth (opAtPath g rest)
      (fun t2 s2 => seqReach_opAtPath g hg rest t2 s2) i s.children s
    rcases hn : opNth (opAtPath g rest) i s.children s with ⟨cs2, s2⟩
    rw [hn] at h1
    simp only [opAtRoot, hn]
    exact h1

theorem seqReach_spanEmitOp (pay : Payload) (t : SpanT) (s : TSt) :
    SeqReach (seqPart s) (seqPart (spanEmitOp pay t s).2) := by
  cases t with
  | mk i par op cs =>
    cases op with
    | true => exact seqReach_emit i par pay s
    | false => exact SeqReach.refl _

theorem seqReach_newChildOp (t : SpanT) (s : TSt) :
    SeqReach (seqPart s) (seqPart (newChildOp t s).2) := by
  cases t with
  | mk i par op cs =>
    cases op with
    | true => exact SeqReach.refl _
    | false => exact SeqReach.refl _

theorem seqReach_setOutcome (o : EventOutcome) (s : TSt) :
    SeqReach (seqPart s) (seqPart (setOutcome o s)) := by
  unfold setOutcome
  split
  · exact SeqReach.refl _
  · split
    · exact SeqReach.refl _
    · have h1 := seqReach_closeSpanList (eventOutcomeToSpanOutcome o) s.children s
      rcases hcl : closeSpanList (eventOutcomeToSpanOutcome o) s.children s with ⟨cs2, s2⟩
      rw [hcl] at h1
      dsimp only
      exact seqReach_trans h1
        (seqReach_emit 0 0 (Payload.outcome o) { s2 with children := cs2 })

theorem seqReach_tstep (s : TSt) (a : TAct) :
    SeqReach (seqPart s) (seqPart (tstep s a)) := by
  cases a with
  | setEventInfoA =>
    simp only [tstep]
    unfold setEventInfo
    split
    · exact SeqReach.refl _
    · split
      · exact SeqReach.refl _
      · exact seqReach_emit 0 0 Payload.onset { s with infoSet := true }
  | setOutcomeA o => exact seqReach_setOutcome o s
  | destroyA =>
    simp only [tstep]
    unfold destroy
    split
    · exact SeqReach.refl _
    · exact seqReach_setOutcome EventOutcome.unknown s
  | addDroppedA a b =>
    simp only [tstep]
    unfold addDropped
    split
    · exact SeqReach.refl _
    · split
      · exact SeqReach.refl _
      · exact seqReach_emit 0 0 (Payload.dropped a b) s
  | addRootEventA p =>
    simp only [tstep]
    unfold addRootEvent
    split
    · exact SeqReach.refl _
    · split
      · exact SeqReach.refl _
      · exact seqReach_emit 0 0 p s
  | newStageSpanA =>
    simp only [tstep]
    unfold newStageSpan
    split
    · exact SeqReach.refl _
    · split
      · exact SeqReach.refl _
      · exact SeqReach.refl _
  | spanSetOutcomeA p o =>
    simp only [tstep]
    unfold spanSetOutcome
    split
    · exact SeqReach.refl _
    · exact seqReach_opAtRoot (closeSpan o) (fun t2 s2 => seqReach_closeSpan o t2 s2) p s
  | spanAddEventA p pay =>
    simp only [tstep]
    unfold spanAddEvent
    split
    · exact SeqReach.refl _
    · exact seqReach_opAtRoot (spanEmitOp pay) (fun t2 s2 => seqReach_spanEmitOp pay t2 s2) p s
  | spanNewChildA p =>
    simp only [tstep]
    unfold spanNewChild
    split
    · exact SeqReach.refl _
    · exact seqReach_opAtRoot newChildOp (fun t2 s2 => seqReach_newChildOp t2 s2) p s

theorem seqList_eq (s : TSt) : (seqPart s).2.map (fun e => e.seq) = seqList s := rfl

theorem seqPart_len (s : TSt) : (seqPart s).2.length = s.emitted.length := rfl

theorem seqPairOK_trun (acts : List TAct) : SeqPairOK (seqPart (trun acts)) := by
  unfold trun
  suffices hgen : ∀ s : TSt, SeqPairOK (seqPart s) → SeqPairOK (seqPart (acts.foldl tstep s)) by
    refine hgen tinit ⟨rfl, rfl⟩
  induction acts with
  | nil => exact fun s hs => hs
  | cons a rest ih =>
    exact fun s hs => ih (tstep s a) (seqReach_pairOK (seqReach_tstep s a) hs)

theorem markFlood_run (n : Nat) :
    ∀ s : TSt, s.closed = false → s.infoSet = true →
      ((markFlood n).foldl tstep s).closed = false ∧
      ((markFlood n).foldl tstep s).infoSet = true ∧
      ((markFlood n).foldl tstep s).emitted.length = s.emitted.length + n := by
  induction n with
  | zero => exact fun s h1 h2 => ⟨h1, h2, rfl⟩
  | succ n ih =>
    intro s h1 h2
    have hstep : tstep s (TAct.addRootEventA Payload.mark) = emit 0 0 Payload.mark s := by
      simp only [tstep]
      unfold addRootEvent
      rw [if_neg (by simp [h1]), if_neg (by simp [h2])]
    have hrepl : markFlood (n + 1) =
        TAct.addRootEventA Payload.mark :: markFlood n := by
      unfold markFlood
      rw [List.replicate_succ]
    rw [hrepl, List.foldl_cons, hstep]
    obtain ⟨c1, c2, c3⟩ := ih (emit 0 0 Payload.mark s) (by simp [emit, h1]) (by simp [emit, h2])
    refine ⟨c1, c2, ?_⟩
    rw [c3]
    simp [emit]
    omega

/-- Counterexample to claim C8 as stated: `sequenceCounter` is a `uint32_t`,
so a session that delivers `2^32 + 1` events (an `Onset` plus `2^32` `Mark`
events) wraps — the event at position `2^32` carries sequence number 0 again,
so the sequence numbers do not form the strictly increasing sequence
`0, 1, 2, …` (that is, they differ from `List.range` of the stream length). -/
theorem claim_C8_counterexample :
    seqList (trun overflowScript) ≠
      List.range (trun overflowScript).emitted.length := by
  have hinit1 : (tstep tinit TAct.setEventInfoA).closed = false := by decide
  have hinit2 : (tstep tinit TAct.setEventInfoA).infoSet = true := by decide
  have hinit3 : (tstep tinit TAct.setEventInfoA).emitted.length = 1 := by decide
  have h0 := markFlood_run u32Mod (tstep tinit TAct.setEventInfoA) hinit1 hinit2
  have hrun : trun overflowScript =
      (markFlood u32Mod).foldl tstep (tstep tinit TAct.setEventInfoA) := by
    unfold trun overflowScript
    rw [List.foldl_cons]
  have hlen : (trun overflowScript).emitted.length = 1 + u32Mod := by
    rw [hrun, h0.2.2, hinit3]
  have hs := (seqPairOK_trun overflowScript).2
  rw [seqPart_len, seqList_eq] at hs
  intro hcontra
  rw [hs] at hcontra
  have hidx := congrArg (fun l : List Nat => l[u32Mod]?) hcontra
  dsimp only at hidx
  rw [hlen] at hidx
  rw [List.getElem?_map, List.getElem?_range (by omega)] at hidx
  simp only [Option.map_some'] at hidx
  rw [Nat.mod_self] at hidx
  have : (0 : Nat) = u32Mod := Option.some.inj hidx
  have hpos : 0 < u32Mod := by
    unfold u32Mod
    positivity
  omega

/-- Claim C8 (amended): sequence numbers are assigned at emission time from
the `uint32_t` counter, so the `k`-th event a session delivers carries
sequence number `k % 2^32`; in particular every session delivering at most
`2^32` events (all realistic sessions) emits the strictly increasing sequence
`0, 1, 2, …` across all its spans. -/
theorem claim_C8_amended (acts : List TAct) :
    seqList (trun acts) =
      (List.range (trun acts).emitted.length).map (fun k => k % u32Mod) ∧
    ((trun acts).emitted.length ≤ u32Mod →
      seqList (trun acts) = List.range (trun acts).emitted.length) := by
  have h := (seqPairOK_trun acts).2
  rw [seqPart_len, seqList_eq] at h
  refine ⟨h, fun hle => ?_⟩
  rw [h]
  have hcong : ∀ k ∈ List.range (trun acts).emitted.length, k % u32Mod = k := by
    intro k hk
    rw [List.mem_range] at hk
    exact Nat.mod_eq_of_lt (lt_of_lt_of_le hk hle)
  rw [List.map_congr_left hcong]
  exact List.map_id _

/-- Witness for the amended C8: a session with an onset, one span, a log and
a full cascade delivers sequences `0, 1, 2, 3, 4`. -/
theorem claim_C8_witness :
    (trun [TAct.setEventInfoA, TAct.newStageSpanA, TAct.spanAddEventA [0] Payload.logP,
      TAct.spanNewChildA [0], TAct.spanAddEventA [0, 0] Payload.mark,
      TAct.setOutcomeA EventOutcome.ok]).emitted.length ≤ u32Mod ∧
    seqList (trun [TAct.setEventInfoA, TAct.newStageSpanA, TAct.spanAddEventA [0] Payload.logP,
      TAct.spanNewChildA [0], TAct.spanAddEventA [0, 0] Payload.mark,
      TAct.setOutcomeA EventOutcome.ok]) =
      List.range (trun [TAct.setEventInfoA, TAct.newStageSpanA,
        TAct.spanAddEventA [0] Payload.logP, TAct.spanNewChildA [0],
        TAct.spanAddEventA [0, 0] Payload.mark,
        TAct.setOutcomeA EventOutcome.ok]).emitted.length := by
  refine ⟨by decide, ?_⟩
  exact (claim_C8_amended [TAct.setEventInfoA, TAct.newStageSpanA,
    TAct.spanAddEventA [0] Payload.logP, TAct.spanNewChildA [0],
    TAct.spanAddEventA [0, 0] Payload.mark, TAct.setOutcomeA EventOutcome.ok]).2 (by decide)

end Tracing

end Workerd
